import Mathlib

/-!
Verification development for `src/instantiateProvider.js` of react-redux-provide:
a shallow embedding of the provider instantiation, query execution/caching and
subscription wiring code, with theorems about the claims of the specification.
-/

namespace RRP

/-! ## JavaScript value model

The code manipulates plain JS values: `null`, `undefined`, booleans, numbers,
strings, arrays and plain objects (modelled as ordered association lists of
string keys, matching JS insertion-order enumeration of string-keyed
properties).  Numbers are modelled as integers: every number appearing in the
claims is a small integer and no arithmetic is performed on them by the code.
-/

inductive JSVal where
  | null
  | undef
  | bool (b : Bool)
  | num (n : Int)
  | str (s : String)
  | arr (elems : List JSVal)
  | obj (fields : List (String × JSVal))

namespace JSVal

/-- JS truthiness: `false`, `0`, `""`, `null`, `undefined` are falsy. -/
def truthy : JSVal → Bool
  | .null => false
  | .undef => false
  | .bool b => b
  | .num n => n != 0
  | .str s => s != ""
  | .arr _ => true
  | .obj _ => true

/-- The JS `typeof` operator (`typeof null` is `"object"`, arrays are `"object"`). -/
def typeOf : JSVal → String
  | .null => "object"
  | .undef => "undefined"
  | .bool _ => "boolean"
  | .num _ => "number"
  | .str _ => "string"
  | .arr _ => "object"
  | .obj _ => "object"

def isArray : JSVal → Bool
  | .arr _ => true
  | _ => false

end JSVal

/-! ## Association-list helpers

JS object property read/write on string keys: `lookup` is `o[k]`, `alSet` is
`o[k] = v` (overwrites in place, appends new keys preserving insertion order),
`alRemove` is `delete o[k]`. -/

def alSet {α β : Type} [DecidableEq α] (l : List (α × β)) (k : α) (v : β) :
    List (α × β) :=
  match l with
  | [] => [(k, v)]
  | (k', v') :: rest =>
      if k' = k then (k, v) :: rest else (k', v') :: alSet rest k v

def alRemove {α β : Type} [DecidableEq α] (l : List (α × β)) (k : α) :
    List (α × β) :=
  l.filter (fun p => p.1 ≠ k)

/-! ## Spreading

`objEntries v` is the list of own enumerable string-keyed properties of `v`,
as used by object spread `{ ...v }`: plain objects contribute their fields,
arrays and strings contribute index-keyed entries, primitives contribute
nothing (object spread never throws).  `iterElems v` is the iteration protocol
used by array spread `[ ...v ]`: arrays and strings are iterable, everything
else raises a `TypeError`. -/

def natKey (n : Nat) : String := toString n

def JSVal.objEntries : JSVal → List (String × JSVal)
  | .obj fs => fs
  | .arr xs => (xs.enum.map fun p => (natKey p.1, p.2))
  | .str s => (s.toList.enum.map fun p => (natKey p.1, .str (String.mk [p.2])))
  | _ => []

def JSVal.iterElems : JSVal → Option (List JSVal)
  | .arr xs => some xs
  | .str s => some (s.toList.map fun c => .str (String.mk [c]))
  | _ => none

/-- `objSpread base entries` is `{ ...baseObj, ...entries }`: later keys
overwrite earlier ones in place, new keys append. -/
def objSpread (base : List (String × JSVal)) (entries : List (String × JSVal)) :
    List (String × JSVal) :=
  entries.foldl (fun acc p => alSet acc p.1 p.2) base

/-! ## `getMergedResult` (instantiateProvider.js lines 533–549)

```js
export function getMergedResult(results) {
  let mergedResult = null;
  for (let providerKey in results) {
    let result = results[providerKey];
    if (Array.isArray(result)) {
      mergedResult = [ ...(mergedResult || []), ...result ];
    } else if (result && typeof result === 'object') {
      mergedResult = { ...(mergedResult || {}), ...result };
    } else if (typeof result !== 'undefined') {
      mergedResult = result;
    }
  }
  return mergedResult;
}
```
The array-spread of the accumulated value can raise a `TypeError` when the
accumulator is truthy and not iterable; this is surfaced as `.error`. -/

inductive MergeError where
  | notIterable
deriving DecidableEq, Repr

open JSVal in
def mergeStep (mergedResult : JSVal) (result : JSVal) :
    Except MergeError JSVal :=
  if result.isArray then
    -- [ ...(mergedResult || []), ...result ]
    let base := if mergedResult.truthy then mergedResult else .arr []
    match base.iterElems, result.iterElems with
    | some xs, some ys => .ok (.arr (xs ++ ys))
    | _, _ => .error .notIterable
  else if result.truthy && (result.typeOf == "object") then
    -- { ...(mergedResult || {}), ...result }
    let base := if mergedResult.truthy then mergedResult else .obj []
    .ok (.obj (objSpread base.objEntries result.objEntries))
  else if result.typeOf != "undefined" then
    .ok result
  else
    .ok mergedResult

/-- The `for (let providerKey in results)` loop: threads the accumulated
`mergedResult` through `mergeStep`, propagating a thrown `TypeError`. -/
def mergeFold : JSVal → List (String × JSVal) → Except MergeError JSVal
  | acc, [] => .ok acc
  | acc, p :: rest =>
      match mergeStep acc p.2 with
      | .ok acc' => mergeFold acc' rest
      | .error e => .error e

def getMergedResult (results : List (String × JSVal)) :
    Except MergeError JSVal :=
  mergeFold .null results

/-- The value goes through the third (`typeof result !== 'undefined'`) branch of
the merge loop: neither an array, nor a truthy `typeof === 'object'` value, nor
`undefined`. -/
def isDefinedScalar (v : JSVal) : Bool :=
  !v.isArray && !(v.truthy && (v.typeOf == "object")) && (v.typeOf != "undefined")

/-- All values of an accumulated array, `[]` for non-arrays. -/
def JSVal.arrElems : JSVal → List JSVal
  | .arr xs => xs
  | _ => []


/-! ## Query cache & executor (instantiateProvider.js lines 495–663)

The executor manipulates three shared tables (`activeQueries`, `queryResults`,
the `providers` registry) and per-consumer ("fauxInstance"/props) state.  The
asynchronous collaborators — the replicators' `handleQuery` and the consumer's
`callback`/`update` hooks — are opaque: handler invocations and callback
firings are recorded as events, and a handler's completion is a separate
world step (`deliverResult`). -/

/-- One replicator node; `handleQuery` is the opaque collaborator function,
identified by a number (`none` models a replicator without one). -/
structure Replicator where
  handleQuery : Option Nat

/-- One `replication` entry (`{ replicator, reducerKeys }`); a non-array
`replicator` is the normalized singleton list. -/
structure ReplicationNode where
  replicator : Option (List Replicator)
  reducerKeys : Option (List String)

/-- The fields of a provider definition read by the query executor.
`reducers` is `Object.keys(provider.reducers)`; `hasWait`/`hasClear` model the
presence of the `wait`/`clear` hook lists (the hooks themselves are opaque
side effects, recorded as events); a non-array `replication` is the
normalized singleton list (`none` = no replication config). -/
structure QProvider where
  key : String
  reducers : List String
  hasWait : Bool
  hasClear : Bool
  replication : Option (List ReplicationNode)

structure QueryHandlerInfo where
  handleQuery : Nat
  reducerKeys : List String

/-- Inner loop of `getQueryHandler`: first replicator exposing `handleQuery`. -/
def findInReplicators : List Replicator → Option Nat
  | [] => none
  | r :: rest =>
      match r.handleQuery with
      | some h => some h
      | none => findInReplicators rest

/-- Outer loop of `getQueryHandler` over `replication` nodes. -/
def findInReplication (provider : QProvider) :
    List ReplicationNode → Option QueryHandlerInfo
  | [] => none
  | node :: rest =>
      match node.replicator with
      | none => findInReplication provider rest
      | some reps =>
          match findInReplicators reps with
          | some h => some ⟨h, node.reducerKeys.getD provider.reducers⟩
          | none => findInReplication provider rest

/-- `getQueryHandler` (lines 504–531): depth-first search over
`replication[].replicator[]` for the first node exposing `handleQuery`; its
`reducerKeys` default to the provider's reducer keys; `null` when none. -/
def getQueryHandler (provider : QProvider) : Option QueryHandlerInfo :=
  match provider.replication with
  | none => none
  | some nodes => findInReplication provider nodes

/-! `jsonStr` models `JSON.stringify`, as used to build `resultKey`
(line 599).  String escaping is not modelled (no claim depends on it); the
function is used only as the stable structural serialization of
`{ query, options }`. -/

mutual

def jsonStr : JSVal → String
  | .null => "null"
  | .undef => "undefined"
  | .bool b => if b then "true" else "false"
  | .num n => toString n
  | .str s => "\x22" ++ s ++ "\x22"
  | .arr xs => "[" ++ String.intercalate "," (jsonStrList xs) ++ "]"
  | .obj fs => "\x7b" ++ String.intercalate "," (jsonStrFields fs) ++ "\x7d"

def jsonStrList : List JSVal → List String
  | [] => []
  | v :: rest => jsonStr v :: jsonStrList rest

def jsonStrFields : List (String × JSVal) → List String
  | [] => []
  | (k, v) :: rest => ("\x22" ++ k ++ "\x22:" ++ jsonStr v) :: jsonStrFields rest

end

/-! `jsEqBool` is modelled from the spec: the shallow-equality collaborator
(`src/shallowEqual.js`, outside the given source) — "shallow-equality
predicate over two result values, used only to decide the 'needs update'
flag".  Modelled as structural equality; no claim depends on its precision. -/

mutual

def jsEqBool : JSVal → JSVal → Bool
  | .null, .null => true
  | .undef, .undef => true
  | .bool a, .bool b => a == b
  | .num a, .num b => a == b
  | .str a, .str b => a == b
  | .arr xs, .arr ys => jsEqList xs ys
  | .obj fs, .obj gs => jsEqFields fs gs
  | _, _ => false

def jsEqList : List JSVal → List JSVal → Bool
  | [], [] => true
  | x :: xs, y :: ys => jsEqBool x y && jsEqList xs ys
  | _, _ => false

def jsEqFields : List (String × JSVal) → List (String × JSVal) → Bool
  | [], [] => true
  | (k, v) :: fs, (k', v') :: gs => k == k' && jsEqBool v v' && jsEqFields fs gs
  | _, _ => false

end

inductive QEvent where
  | semaphoreInit (consumer : Nat) (n : Int)
  | handleQueryInvoked (resultKey : String) (handler : Nat)
  | waitRun (providerKey : String)
  | clearRun (providerKey : String)
  | consumerCallback (consumer : Nat)
  | consumerUpdate (consumer : Nat)
deriving DecidableEq, Repr

/-- Per-consumer state: the fields of the consumer's `fauxInstance`/`props`
read and written by `handleQueries` and by the closures it registers
(`clear`, `resultHandler`).  `hasQuery` is the truthiness of the consumer's
flat `query`; `hasCallback`/`hasUpdate` model the presence of the completion
callback and of `fauxInstance.update`. -/
structure Consumer where
  hasQuery : Bool
  hasUpdate : Bool
  hasCallback : Bool
  semaphore : Int
  results : List (String × JSVal)
  result : Option JSVal
  previousResults : List (String × JSVal)
  doUpdate : Bool

def freshConsumer : Consumer :=
  { hasQuery := false, hasUpdate := false, hasCallback := false,
    semaphore := 0, results := [], result := none, previousResults := [],
    doUpdate := false }

/-- The query world: the `providers` registry, the two shared query tables
(`activeQueries` holds the pending-handler lists keyed by `resultKey`,
`queryResults` the resolved cache), the consumers, and the observable event
trace. -/
structure QueryWorld where
  providers : List (String × QProvider)
  activeQueries : List (String × List (Nat × String))
  queryResults : List (String × JSVal)
  consumers : List (Nat × Consumer)
  events : List QEvent

def QueryWorld.setConsumer (w : QueryWorld) (c : Nat) (f : Consumer → Consumer) :
    QueryWorld :=
  { w with consumers := w.consumers.map fun p => if p.1 = c then (p.1, f p.2) else p }

def emitQ (w : QueryWorld) (e : QEvent) : QueryWorld :=
  { w with events := w.events ++ [e] }

/-- Errors raised (as JS exceptions) by the executor: `noQueryHandler` is the
`TypeError` from destructuring `null` at line 641 when `getQueryHandler`
finds nothing; `unknownProvider` the `TypeError` from reading `provider.wait`
of `undefined`; `mergeFailure` a `TypeError` escaping `getMergedResult`. -/
inductive QError where
  | noQueryHandler (providerKey : String)
  | unknownProvider (providerKey : String)
  | mergeFailure (e : MergeError)
deriving DecidableEq, Repr

/-- The per-consumer `clear` closure (lines 572–587): decrement the join
counter; at zero, merge the per-provider results when a flat `query` was
used, fire the consumer's `update` hook when flagged, then the completion
callback. -/
def clearSem (w : QueryWorld) (c : Nat) : Except QError QueryWorld :=
  match List.lookup c w.consumers with
  | none => .ok w
  | some cons =>
      let sem := cons.semaphore - 1
      if sem = 0 then
        match (if cons.hasQuery then (getMergedResult cons.results).map some
               else .ok cons.result) with
        | .error e => .error (.mergeFailure e)
        | .ok res =>
            let w := w.setConsumer c fun k => { k with semaphore := sem, result := res }
            let w := if cons.doUpdate && cons.hasUpdate
                     then emitQ w (.consumerUpdate c) else w
            let w := if cons.hasCallback
                     then emitQ w (.consumerCallback c) else w
            .ok w
      else
        .ok (w.setConsumer c fun k => { k with semaphore := sem })

/-- One queued `resultHandler` (lines 617–636): flag "needs update" when the
delivered value differs shallowly from the consumer's previous render value,
write the value into the consumer's `results` and the shared cache,
decrement the join counter, then run the provider's `clear` hooks. -/
def runResultHandler (w : QueryWorld) (h : Nat × String) (resultKey : String)
    (result : JSVal) : Except QError QueryWorld :=
  match List.lookup h.1 w.consumers with
  | none => .ok w
  | some cons =>
      let previousResult := (List.lookup h.2 cons.previousResults).getD .undef
      let doUpd := cons.doUpdate || !jsEqBool result previousResult
      let w := w.setConsumer h.1 fun k =>
        { k with doUpdate := doUpd, results := alSet k.results h.2 result }
      let w := { w with queryResults := alSet w.queryResults resultKey result }
      match clearSem w h.1 with
      | .error e => .error e
      | .ok w2 =>
          match List.lookup h.2 w2.providers with
          | none => .ok w2
          | some provider =>
              .ok (if provider.hasClear then emitQ w2 (.clearRun h.2) else w2)

def drainHandlers (resultKey : String) (result : JSVal) :
    QueryWorld → List (Nat × String) → Except QError QueryWorld
  | w, [] => .ok w
  | w, h :: rest =>
      match runResultHandler w h resultKey result with
      | .error e => .error e
      | .ok w' => drainHandlers resultKey result w' rest

/-- The `onResult` completion callback registered with `handleQuery`
(lines 652–658): delete the pending marker, then drain the pending handler
list FIFO with the single resolved value.  (Deleting `activeQueries[resultKey]`
before draining means late joiners can no longer reach this list, so draining
the snapshot is faithful.) -/
def deliverResult (w : QueryWorld) (resultKey : String) (result : JSVal) :
    Except QError QueryWorld :=
  match List.lookup resultKey w.activeQueries with
  | none => .ok w
  | some hs =>
      drainHandlers resultKey result
        { w with activeQueries := alRemove w.activeQueries resultKey } hs

/-- The inputs of one `handleQueries` call, after the §4.2 resolution
performed by `getQueries`/`getQuery`/`getQueryOptions`/`getQueriesOptions`
(memoized on the consumer context): the resolved sub-query mapping (`none`
models `null`), the flat `query` value (`.null` when absent), and the
options sources. -/
structure HQInput where
  consumer : Nat
  query : JSVal
  queries : Option (List (String × JSVal))
  queryOptions : JSVal
  queriesOptions : List (String × JSVal)
  hasCallback : Bool
  hasUpdate : Bool

/-- The `options` resolution of line 598:
`queryOptions || queriesOptions[key] || {}`. -/
def resolveOptions (inp : HQInput) (key : String) : JSVal :=
  if inp.queryOptions.truthy then inp.queryOptions
  else
    match List.lookup key inp.queriesOptions with
    | some o => if o.truthy then o else .obj []
    | none => .obj []

def resultKeyOf (inp : HQInput) (entry : String × JSVal) : String :=
  jsonStr (.obj [("query", entry.2), ("options", resolveOptions inp entry.1)])

/-- One iteration of the `for (let key in queries)` loop (lines 595–660).
On a cache hit the value is copied and the counter cleared; while a pending
list exists the consumer's handler is appended; on the cold path the
provider's `wait` hooks run, the query handler is located (destructuring
`null` — a raised `TypeError` — when there is none), a fresh pending list is
registered and the handler invoked.  `options.select` defaulting (lines
643–647) only shapes the arguments handed to the opaque handler, which the
model records by handler id. -/
def processEntry (w : QueryWorld) (inp : HQInput) (entry : String × JSVal) :
    Except QError QueryWorld :=
  let resultKey := resultKeyOf inp entry
  match List.lookup resultKey w.queryResults with
  | some queryResult =>
      let w := w.setConsumer inp.consumer fun k =>
        { k with results := alSet k.results entry.1 queryResult }
      clearSem w inp.consumer
  | none =>
      match List.lookup entry.1 w.providers with
      | none => .error (.unknownProvider entry.1)
      | some provider =>
          let w := if provider.hasWait then emitQ w (.waitRun entry.1) else w
          match List.lookup resultKey w.activeQueries with
          | some resultHandlers =>
              let aq := alSet w.activeQueries resultKey
                (resultHandlers ++ [(inp.consumer, entry.1)])
              .ok { w with activeQueries := aq }
          | none =>
              match getQueryHandler provider with
              | none => .error (.noQueryHandler entry.1)
              | some info =>
                  let aq := alSet w.activeQueries resultKey
                    [(inp.consumer, entry.1)]
                  .ok (emitQ { w with activeQueries := aq }
                    (.handleQueryInvoked resultKey info.handleQuery))

def processQueries (inp : HQInput) :
    QueryWorld → List (String × JSVal) → Except QError QueryWorld
  | w, [] => .ok w
  | w, entry :: rest =>
      match processEntry w inp entry with
      | .error e => .error e
      | .ok w' => processQueries inp w' rest

/-- `handleQueries` (lines 551–663).  A `null` resolved mapping invokes the
callback and reports `false`; otherwise the consumer's previous results are
snapshotted, the join counter is seeded with the number of resolved
sub-queries (recorded as a `semaphoreInit` event), each entry is processed in
iteration order, and `true` is reported. -/
def handleQueries (w : QueryWorld) (inp : HQInput) :
    Except QError (QueryWorld × Bool) :=
  match inp.queries with
  | none =>
      let w := if inp.hasCallback then emitQ w (.consumerCallback inp.consumer) else w
      .ok (w, false)
  | some queries =>
      let n : Int := queries.length
      let w := w.setConsumer inp.consumer fun k =>
        { k with
          hasQuery := inp.query.truthy
          hasUpdate := inp.hasUpdate
          hasCallback := inp.hasCallback
          previousResults := k.results
          semaphore := n
          result := if inp.query.truthy then none else k.result
          results := []
          doUpdate := false }
      let w := emitQ w (.semaphoreInit inp.consumer n)
      match processQueries inp w queries with
      | .error e => .error e
      | .ok w' => .ok (w', true)

/-- Number of `handleQuery` invocations recorded for a given `resultKey`. -/
def countInvoked (evs : List QEvent) (rk : String) : Nat :=
  (evs.filter fun e =>
    match e with
    | .handleQueryInvoked rk' _ => rk' == rk
    | _ => false).length

/-- Number of completion-callback firings recorded for a given consumer. -/
def countCallback (evs : List QEvent) (c : Nat) : Nat :=
  (evs.filter fun e =>
    match e with
    | .consumerCallback c' => c' == c
    | _ => false).length


/-! ### Two-consumer dedup scenario (C2)

One provider `"p"`, two consumers issuing the structurally identical
`{ query, options }`, then the single handler completion. -/

def c2Key (q o : JSVal) : String :=
  jsonStr (.obj [("query", q), ("options", o)])

def c2World (P : QProvider) : QueryWorld :=
  ⟨[("p", P)], [], [], [(1, freshConsumer), (2, freshConsumer)], []⟩

def c2Inp (c : Nat) (q o : JSVal) : HQInput :=
  ⟨c, .null, some [("p", q)], o, [], true, false⟩

def c2Step1 (q o : JSVal) (P : QProvider) :
    Except QError (QueryWorld × Bool) :=
  handleQueries (c2World P) (c2Inp 1 q o)

def c2Step2 (q o : JSVal) (P : QProvider) :
    Except QError (QueryWorld × Bool) :=
  (c2Step1 q o P).bind fun r => handleQueries r.1 (c2Inp 2 q o)

def c2Step3 (q o v : JSVal) (P : QProvider) : Except QError QueryWorld :=
  (c2Step2 q o P).bind fun r => deliverResult r.1 (c2Key q o) v

/-! ## `getResultInstances` (instantiateProvider.js lines 87–114)

The join-counter skeleton of the instance-gathering helper: `semaphore` is
seeded with `result && result.length`; when that is `0`/undefined it is reset
to `1` and `clear()` is called immediately (`forcedSeed` records this); each
entry writes `null` into `resultInstances[index]` and instantiates a
provider whose ready callback stores the instance and calls `clear()`.  The
`instantiateProvider` collaborator call is abstracted by the entry value: an
entry `some inst` completes synchronously within its own iteration (the
instance is already registered and ready — the situation proved possible by
the C1/C7 theorems), `none` defers completion to a later `griDeliver`. -/

structure GRun where
  resultInstances : List (Option Nat)
  initialSemaphore : Int
  forcedSeed : Bool
  semaphore : Int
  callbackCount : Nat
deriving DecidableEq, Repr

/-- The `clear` closure: `if (--semaphore === 0) callback(resultInstances)`. -/
def griClear (g : GRun) : GRun :=
  let sem := g.semaphore - 1
  { g with semaphore := sem,
           callbackCount := if sem = 0 then g.callbackCount + 1
                            else g.callbackCount }

def griLoop : GRun → Nat → List (Option Nat) → GRun
  | g, _, [] => g
  | g, i, entry :: rest =>
      let g := { g with resultInstances := g.resultInstances ++ [none] }
      let g :=
        match entry with
        | some inst =>
            griClear { g with resultInstances := g.resultInstances.set i (some inst) }
        | none => g
      griLoop g (i + 1) rest

def getResultInstances (result : Option (List (Option Nat))) : GRun :=
  let len : Int := match result with | none => 0 | some l => (l.length : Int)
  let g : GRun := { resultInstances := [], initialSemaphore := len,
                    forcedSeed := false, semaphore := len, callbackCount := 0 }
  if len = 0 then griClear { g with semaphore := 1, forcedSeed := true }
  else griLoop g 0 (result.getD [])

/-- A deferred entry's ready callback arriving at a later turn. -/
def griDeliver (g : GRun) (i : Nat) (inst : Nat) : GRun :=
  griClear { g with resultInstances := g.resultInstances.set i (some inst) }

/-! ## Provider instantiation & subscription wiring
(instantiateProvider.js lines 6–378)

The mutable state: the `providers` registry (whose definitions are
themselves mutated: `hasThunk`, `subscribers`/`subscribeTo` mirroring,
`instances` lists), the global and per-context instance tables, the heap of
created instances, the store listeners attached by the subscription blocks,
and the observable event trace.  The store itself, the thunk middleware body,
`actionCreators`, and the provider api closures are opaque collaborators:
only their observable effects (events) are modelled.  `pushOnReady` /
`unshiftOnReady` are modelled from the spec (`keyConcats.js` is outside the
given source): "per-instance ordered ready-callback list supporting
insert-at-front (internal flag-setter, must run first) and insert-at-back
(user callbacks)". -/

/-- The `providerKey` argument: absent (fewer than four JS arguments, lines
24–27), a literal value, or a key function — opaque, carrying the value it
computes on this consumer context (line 37). -/
inductive KeyArg where
  | defaulted
  | literal (k : String)
  | keyFn (computed : String)
deriving DecidableEq, Repr

inductive ReadyCb where
  | setReadyFlag
  | user (id : Nat)
deriving DecidableEq, Repr

structure Instance where
  defKey : String
  providerKey : String
  isStatic : Bool
  ready : Bool
  onReady : List ReadyCb
deriving DecidableEq, Repr

/-- A store-change listener.  Both subscription closures (lines 290–298 and
lines 325–329) have the same observable shape: when the supplier instance's
store fires, invoke `handler` once per *currently existing* instance of the
subscriber definition, passing the fixed supplier instance and that
subscriber instance. -/
structure Listener where
  handler : Nat
  supInst : Nat
  subDefKey : String
deriving DecidableEq, Repr

/-- The fields of a provider definition read/written by `instantiateProvider`.
`hasWait`/`hasClear` model the presence of the hook lists (opaque effects,
recorded as events); `hasThunk` is the idempotency flag of line 62;
`replicationDefers` collapses the line-371 condition
`provider.replication && store.onReady && !store.initializedReplication`
(the store is an opaque collaborator); `subscribers`/`subscribeTo` map a
peer definition key to an opaque handler id. -/
structure PDef where
  key : String
  isGlobal : Bool
  hasWait : Bool
  hasClear : Bool
  hasThunk : Bool
  replicationDefers : Bool
  subscribers : Option (List (String × Nat))
  subscribeTo : Option (List (String × Nat))
  instances : Option (List Nat)
deriving DecidableEq, Repr

inductive IEvent where
  | waitRun (defKey : String)
  | clearRun (defKey : String)
  | storeCreated (instId : Nat)
  | readyCbInvoked (cb : Nat) (instId : Nat) (readyObserved : Bool)
  | handlerFired (handler : Nat) (supInst : Nat) (subInst : Nat)
deriving DecidableEq, Repr

structure IWorld where
  providers : List (String × PDef)
  globalProviderInstances : List (String × Nat)
  providerInstances : List (String × Nat)
  heap : List Instance
  listeners : List (Nat × Listener)
  events : List IEvent
deriving DecidableEq, Repr

def IWorld.emit (w : IWorld) (e : IEvent) : IWorld :=
  { w with events := w.events ++ [e] }

def IWorld.heapGet (w : IWorld) (i : Nat) : Option Instance := w.heap.get? i

def IWorld.heapMod (w : IWorld) (i : Nat) (f : Instance → Instance) : IWorld :=
  match w.heap.get? i with
  | none => w
  | some inst => { w with heap := w.heap.set i (f inst) }

def IWorld.getDef (w : IWorld) (k : String) : Option PDef :=
  List.lookup k w.providers

def IWorld.setDef (w : IWorld) (k : String) (d : PDef) : IWorld :=
  { w with providers := alSet w.providers k d }

/-- Current instances list of a definition, read live at fire time. -/
def IWorld.defInstances (w : IWorld) (k : String) : List Nat :=
  ((w.getDef k).bind (fun d => d.instances)).getD []

/-- Modelled from the spec: `pushOnReady` of `keyConcats.js` — append a
callback at the back of the instance's ready-callback list. -/
def pushOnReady (w : IWorld) (i : Nat) (cb : ReadyCb) : IWorld :=
  w.heapMod i fun inst => { inst with onReady := inst.onReady ++ [cb] }

/-- Modelled from the spec: `unshiftOnReady` of `keyConcats.js` — insert a
callback at the front of the instance's ready-callback list. -/
def unshiftOnReady (w : IWorld) (i : Nat) (cb : ReadyCb) : IWorld :=
  w.heapMod i fun inst => { inst with onReady := cb :: inst.onReady }

/-- Fire one listener: invoke its handler once per currently existing
instance of the subscriber definition. -/
def fireListener (w : IWorld) (l : Listener) : IWorld :=
  { w with events := w.events ++
      ((w.defInstances l.subDefKey).map fun b =>
        .handlerFired l.handler l.supInst b) }

def fireListeners : IWorld → List (Nat × Listener) → IWorld
  | w, [] => w
  | w, p :: rest => fireListeners (fireListener w p.2) rest

/-- A store change of instance `i`: fire every listener subscribed on its
store, in subscription order. -/
def fireStoreChange (w : IWorld) (i : Nat) : IWorld :=
  fireListeners w (w.listeners.filter fun p => p.1 = i)

/-- One entry of the `provider.subscribers` block (lines 287–309): mirror the
edge onto the peer's `subscribeTo` (presence-checked), subscribe `callHandler`
on the new instance's store, then replay it eagerly once. -/
def wireOneSubscriber (w : IWorld) (providerDotKey : String) (i : Nat)
    (subKey : String) (handler : Nat) : IWorld :=
  match w.getDef subKey with
  | none => w
  | some subProvider =>
      let entry := subProvider.subscribeTo.getD []
      let entry' := if (List.lookup providerDotKey entry).isSome then entry
                    else alSet entry providerDotKey handler
      let w := w.setDef subKey { subProvider with subscribeTo := some entry' }
      let w := { w with listeners := w.listeners ++ [(i, ⟨handler, i, subKey⟩)] }
      fireListener w ⟨handler, i, subKey⟩

def wireSubscribersList (providerDotKey : String) (i : Nat) :
    IWorld → List (String × Nat) → IWorld
  | w, [] => w
  | w, (subKey, handler) :: rest =>
      wireSubscribersList providerDotKey i
        (wireOneSubscriber w providerDotKey i subKey handler) rest

def subscribeSupInstances (handler : Nat) (providerDotKey : String) :
    IWorld → List Nat → IWorld
  | w, [] => w
  | w, s :: rest =>
      subscribeSupInstances handler providerDotKey
        { w with listeners := w.listeners ++ [(s, ⟨handler, s, providerDotKey⟩)] }
        rest

/-- One entry of the `provider.subscribeTo` block (lines 313–339): when the
supplier definition does not yet carry the mirrored `subscribers` entry,
record it and subscribe a listener on every existing supplier instance's
store; in every case, eagerly replay the handler once per existing supplier
instance against the new instance. -/
def wireOneSubscribeTo (w : IWorld) (providerDotKey : String) (i : Nat)
    (supKey : String) (handler : Nat) : IWorld :=
  match w.getDef supKey with
  | none => w
  | some supProvider =>
      let subsEntry := supProvider.subscribers.getD []
      let w :=
        if (List.lookup providerDotKey subsEntry).isSome then w
        else
          let w := w.setDef supKey
            { supProvider with
                subscribers := some (alSet subsEntry providerDotKey handler) }
          subscribeSupInstances handler providerDotKey w
            (supProvider.instances.getD [])
      { w with events := w.events ++
          ((supProvider.instances.getD []).map fun s =>
            .handlerFired handler s i) }

def wireSubscribeToList (providerDotKey : String) (i : Nat) :
    IWorld → List (String × Nat) → IWorld
  | w, [] => w
  | w, (supKey, handler) :: rest =>
      wireSubscribeToList providerDotKey i
        (wireOneSubscribeTo w providerDotKey i supKey handler) rest

/-- Run the instance's ready callbacks in list order: the internal
flag-setter flips `ready`; a user callback is invoked observing the
instance's `ready` flag at that moment. -/
def runReadyCbs (i : Nat) : IWorld → List ReadyCb → IWorld
  | w, [] => w
  | w, cb :: rest =>
      match cb with
      | .setReadyFlag =>
          runReadyCbs i (w.heapMod i fun inst => { inst with ready := true }) rest
      | .user c =>
          let rdy := ((w.heapGet i).map (fun inst => inst.ready)).getD false
          runReadyCbs i (w.emit (.readyCbInvoked c i rdy)) rest

/-- The `done` closure (lines 358–369): fire all ready callbacks in order,
then run the definition's `clear` hooks. -/
def runDone (w : IWorld) (i : Nat) : IWorld :=
  match w.heapGet i with
  | none => w
  | some inst =>
      let w := runReadyCbs i w inst.onReady
      if ((w.getDef inst.defKey).map (fun d => d.hasClear)).getD false
      then w.emit (.clearRun inst.defKey) else w

/-- Line 26 / lines 33–40: the resolved runtime `providerKey`. -/
def resolveKey (provider : PDef) : KeyArg → String
  | .defaulted => provider.key
  | .literal k => k
  | .keyFn c => c

/-- Lines 33–40: `isStatic` is `typeof providerKey !== 'function'`, and for a
key function, whether the computed key equals the definition's key. -/
def staticFor (provider : PDef) : KeyArg → Bool
  | .keyFn c => c == provider.key
  | _ => true

/-- Lines 42–44: registry lookup — the global table when `isGlobal`, else the
per-context table (always present in the model, as `getProviderInstances`
defaults it to `{}`). -/
def lookupInstance (w : IWorld) (isGlobal : Bool) (pk : String) : Option Nat :=
  if isGlobal then List.lookup pk w.globalProviderInstances
  else List.lookup pk w.providerInstances

/-- Lines 281–284: append the new instance to the definition's list. -/
def defInstancesPush (w : IWorld) (k : String) (i : Nat) : IWorld :=
  match w.getDef k with
  | none => w
  | some d => w.setDef k { d with instances := some (d.instances.getD [] ++ [i]) }

/-- `instantiateProvider` (lines 18–378).  Returns the (unchanged or
extended) world and the returned instance id (`none` only for an unknown
definition, where JS raises a `TypeError` — unreachable for well-formed
calls).  The `fauxInstance.relevantProviders` marking (lines 46–48) is
consumer-context bookkeeping not modelled here; the thunk middleware body,
the store, `setKey` and `actionCreators` (lines 73–273) act only on opaque
collaborators. -/
def instantiateProvider (w : IWorld) (defKey : String) (keyArg : KeyArg)
    (readyCb : Option Nat) : IWorld × Option Nat :=
  match w.getDef defKey with
  | none => (w, none)
  | some provider =>
      let providerKey := resolveKey provider keyArg
      let isStatic := staticFor provider keyArg
      match lookupInstance w provider.isGlobal providerKey with
      | some i =>
          -- lines 50–60: existing instance, no duplicate creation
          match readyCb with
          | none => (w, some i)
          | some cb =>
              match w.heapGet i with
              | none => (w, some i)
              | some inst =>
                  if inst.ready then (w.emit (.readyCbInvoked cb i true), some i)
                  else (pushOnReady w i (.user cb), some i)
      | none =>
          -- lines 62–228: once-per-definition middleware installation,
          -- guarded by `hasThunk`
          let w := if provider.hasThunk then w
                   else w.setDef defKey { provider with hasThunk := true }
          let provider := { provider with hasThunk := true }
          -- lines 230–232: wait hooks before building the store
          let w := if provider.hasWait then w.emit (.waitRun defKey) else w
          -- lines 234–236: create the delegating instance
          let i := w.heap.length
          let w := { w with heap := w.heap ++
            [({ defKey := defKey, providerKey := providerKey,
                isStatic := isStatic, ready := false, onReady := [] } : Instance)] }
          -- line 238: store construction
          let w := w.emit (.storeCreated i)
          -- lines 275–284: registration
          let w := if provider.isGlobal
                   then { w with globalProviderInstances :=
                            alSet w.globalProviderInstances providerKey i }
                   else w
          let w := { w with providerInstances :=
                       alSet w.providerInstances providerKey i }
          let w := defInstancesPush w defKey i
          -- lines 286–340: subscription wiring
          let w := wireSubscribersList provider.key i w (provider.subscribers.getD [])
          let w := wireSubscribeToList provider.key i w (provider.subscribeTo.getD [])
          -- lines 342–348: onInstantiated (no such callbacks in the modelled
          -- scenarios); lines 350–356: ready queue
          let w := unshiftOnReady w i .setReadyFlag
          let w := match readyCb with
                   | some cb => pushOnReady w i (.user cb)
                   | none => w
          -- lines 371–375: replication gating of `done`
          let w := if provider.replicationDefers then w else runDone w i
          (w, some i)

/-- The deferred `done` arriving through `store.onReady` (line 372). -/
def fireStoreReady (w : IWorld) (i : Nat) : IWorld := runDone w i

/-- Number of store constructions recorded in a trace. -/
def countStoreCreated (evs : List IEvent) : Nat :=
  (evs.filter fun e =>
    match e with
    | .storeCreated _ => true
    | _ => false).length

/-- Number of `wait`-hook runs of a definition recorded in a trace. -/
def countWaitRun (evs : List IEvent) (k : String) : Nat :=
  (evs.filter fun e =>
    match e with
    | .waitRun k' => k' == k
    | _ => false).length

/-- The trace fragment contains neither a store construction nor a
`wait`-hook run. -/
def creationFree (evs : List IEvent) : Bool :=
  evs.all fun e =>
    match e with
    | .storeCreated _ => false
    | .waitRun _ => false
    | _ => true

/-- The observable identity of the instance stored at heap slot `j`:
its resolved `providerKey` and its `isStatic` flag. -/
def sigAt (w : IWorld) (j : Nat) : Option (String × Bool) :=
  (w.heapGet j).map fun inst => (inst.providerKey, inst.isStatic)

/-- The immutable identity of a registered definition: its `key` and its
`isGlobal` flag (the wiring blocks mutate only `subscribers`/`subscribeTo`/
`instances`/`hasThunk`). -/
def defSig (w : IWorld) (k : String) : Option (String × Bool) :=
  (w.getDef k).map fun d => (d.key, d.isGlobal)

/-- The pair (number of store constructions, number of `wait`-hook runs of
definition `k`) recorded in the world's trace. -/
def creationCounts (w : IWorld) (k : String) : Nat × Nat :=
  (countStoreCreated w.events, countWaitRun w.events k)

/-- N successive `instantiateProvider` calls for one (definition, key) pair,
collecting the returned instance ids. -/
def repeatCalls (defKey : String) (keyArg : KeyArg) :
    IWorld → List (Option Nat) → IWorld × List (Option Nat)
  | w, [] => (w, [])
  | w, cb :: rest =>
      let r := instantiateProvider w defKey keyArg cb
      let rs := repeatCalls defKey keyArg r.1 rest
      (rs.1, r.2 :: rs.2)

/-! ### Mirrored-edge scenario (C8)

Two definitions declaring the same subscription edge from both sides:
`S.subscribers = { B: handler }` and `B.subscribeTo = { S: handler }`. -/

def c8SDef (h : Nat) : PDef :=
  ⟨"S", false, false, false, false, false, some [("B", h)], none, none⟩

def c8BDef (h : Nat) : PDef :=
  ⟨"B", false, false, false, false, false, none, some [("S", h)], none⟩

def c8World (h : Nat) : IWorld :=
  ⟨[("S", c8SDef h), ("B", c8BDef h)], [], [], [], [], []⟩

/-- One `instantiateProvider` call. -/
structure Cmd where
  defKey : String
  keyArg : KeyArg
  cb : Option Nat

def runCmds : IWorld → List Cmd → IWorld
  | w, [] => w
  | w, c :: rest => runCmds (instantiateProvider w c.defKey c.keyArg c.cb).1 rest

/-- Invariant of the mirrored-edge world: the registry holds exactly the two
definitions with the edge present on both sides (the presence checks keep it
that way), every supplier (`S`) instance carries exactly one store listener —
the `callHandler` closure for the handler against `B`'s live instance list —
subscriber (`B`) instances carry none, and the instance lists are duplicate
free and within the heap. -/
def c8Inv (h : Nat) (w : IWorld) : Prop :=
  ∃ (sd bd : PDef),
    w.providers = [("S", sd), ("B", bd)] ∧
    sd.key = "S" ∧ sd.isGlobal = false ∧
    sd.subscribers = some [("B", h)] ∧ sd.subscribeTo = none ∧
    bd.key = "B" ∧ bd.isGlobal = false ∧
    bd.subscribers = none ∧ bd.subscribeTo = some [("S", h)] ∧
    w.listeners = (sd.instances.getD []).map (fun s => (s, ⟨h, s, "B"⟩)) ∧
    (sd.instances.getD []).Nodup ∧
    (bd.instances.getD []).Nodup ∧
    (∀ x ∈ sd.instances.getD [], x < w.heap.length) ∧
    (∀ x ∈ bd.instances.getD [], x < w.heap.length)

/-! ## General lemmas -/

theorem lookup_cons_self {β : Type} (k : String) (v : β) (l : List (String × β)) :
    List.lookup k ((k, v) :: l) = some v := by
  simp [List.lookup]

theorem mergeFold_append (rs : List (String × JSVal)) (p : String × JSVal) :
    ∀ init : JSVal,
      mergeFold init (rs ++ [p]) =
        match mergeFold init rs with
        | .ok a => mergeStep a p.2
        | .error e => .error e := by
  induction rs with
  | nil =>
      intro init
      simp only [List.nil_append, mergeFold]
      cases mergeStep init p.2 <;> rfl
  | cons hd tl ih =>
      intro init
      simp only [List.cons_append, mergeFold]
      cases mergeStep init hd.2 with
      | error e => rfl
      | ok b => exact ih b

theorem getMergedResult_append (rs : List (String × JSVal)) (p : String × JSVal)
    (a : JSVal) (h : getMergedResult rs = .ok a) :
    getMergedResult (rs ++ [p]) = mergeStep a p.2 := by
  unfold getMergedResult at *
  rw [mergeFold_append, h]

theorem mergeStep_scalar (acc v : JSVal) (hv : isDefinedScalar v = true) :
    mergeStep acc v = .ok v := by
  simp only [isDefinedScalar, Bool.and_eq_true, Bool.not_eq_true'] at hv
  obtain ⟨⟨h1, h2⟩, h3⟩ := hv
  simp [mergeStep, h1, h2, h3]

theorem mergeStep_obj (a : List (String × JSVal)) (fs : List (String × JSVal)) :
    mergeStep (.obj a) (.obj fs) = .ok (.obj (objSpread a fs)) := rfl

theorem mergeStep_arr (a : List JSVal) (xs : List JSVal) :
    mergeStep (.arr a) (.arr xs) = .ok (.arr (a ++ xs)) := rfl

theorem mergeFold_objs (rs : List (String × JSVal))
    (h : ∀ p ∈ rs, ∃ fs, p.2 = JSVal.obj fs) :
    ∀ a : List (String × JSVal),
      mergeFold (JSVal.obj a) rs =
        .ok (.obj (rs.foldl (fun acc q => objSpread acc q.2.objEntries) a)) := by
  induction rs with
  | nil => intro a; rfl
  | cons hd tl ih =>
      intro a
      obtain ⟨fs, hfs⟩ := h hd (List.mem_cons_self hd tl)
      simp only [mergeFold, List.foldl, hfs, mergeStep_obj]
      have := ih (fun p hp => h p (List.mem_cons_of_mem hd hp)) (objSpread a fs)
      simpa [hfs, JSVal.objEntries] using this

theorem mergeFold_arrs (rs : List (String × JSVal))
    (h : ∀ p ∈ rs, ∃ xs, p.2 = JSVal.arr xs) :
    ∀ a : List JSVal,
      mergeFold (JSVal.arr a) rs =
        .ok (.arr (rs.foldl (fun acc q => acc ++ q.2.arrElems) a)) := by
  induction rs with
  | nil => intro a; rfl
  | cons hd tl ih =>
      intro a
      obtain ⟨xs, hxs⟩ := h hd (List.mem_cons_self hd tl)
      simp only [mergeFold, List.foldl, hxs, mergeStep_arr]
      have := ih (fun p hp => h p (List.mem_cons_of_mem hd hp)) (a ++ xs)
      simpa [hxs, JSVal.arrElems] using this

/-! ## Claims C3, C4, C10 about `getMergedResult` -/

/-- C3 counterexample: the claim says a scalar result overwrites the
accumulated merge only when no container-typed result is present in the
mapping.  In the mapping `{A: {y:9}, B: 5}` a container (the object `{y:9}`)
is present, yet the trailing scalar `5` overwrites it: the merged result is
`5`, not `{y:9}` — the scalar branch of `getMergedResult` overwrites
unconditionally. -/
theorem c3_scalar_precedence_counterexample :
    getMergedResult [("A", .obj [("y", .num 9)]), ("B", .num 5)]
        = .ok (.num 5) ∧
      JSVal.num 5 ≠ JSVal.obj [("y", JSVal.num 9)] :=
  ⟨rfl, fun h => JSVal.noConfusion h⟩

/-- C3 amended: a defined scalar result unconditionally overwrites the
accumulated merge when it is processed (even when container-typed results
occur earlier in the mapping); a container-typed result processed later takes
precedence over a scalar seen earlier.  In particular provider A resolving to
the scalar `5` followed by provider B resolving to `{y:9}` yields the merged
result `{y:9}`, while `{y:9}` followed by `5` yields `5`. -/
theorem c3_scalar_precedence_amended :
    (∀ (rs : List (String × JSVal)) (k : String) (v w : JSVal),
        isDefinedScalar v = true → getMergedResult rs = .ok w →
        getMergedResult (rs ++ [(k, v)]) = .ok v) ∧
      getMergedResult [("A", .num 5), ("B", .obj [("y", .num 9)])]
        = .ok (.obj [("y", .num 9)]) ∧
      getMergedResult [("A", .obj [("y", .num 9)]), ("B", .num 5)]
        = .ok (.num 5) := by
  refine ⟨fun rs k v w hv hrs => ?_, rfl, rfl⟩
  rw [getMergedResult_append rs (k, v) w hrs]
  exact mergeStep_scalar w v hv

/-- Witness for `c3_scalar_precedence_amended` at a concrete input: appending
the scalar `"s"` to a mapping that merged to `{}` yields the scalar. -/
theorem c3_scalar_precedence_amended_witness :
    isDefinedScalar (.str "s") = true ∧
      getMergedResult [("A", JSVal.obj [])] = .ok (.obj []) ∧
      getMergedResult [("A", JSVal.obj []), ("B", JSVal.str "s")]
        = .ok (.str "s") :=
  ⟨rfl, rfl,
    c3_scalar_precedence_amended.1 [("A", JSVal.obj [])] "B"
      (.str "s") (.obj []) rfl rfl⟩

/-- C4 (merge law): a flat query whose providers all resolve to plain objects
merges to their shallow merge in provider-processing order, and one whose
providers all resolve to arrays merges to their concatenation in
provider-processing order; in particular A→`{a:1}`, B→`{b:2}` merges to
`{a:1,b:2}` and `[1]`, `[2]` merge to `[1,2]`. -/
theorem c4_merge_law :
    (∀ (k : String) (fs : List (String × JSVal)) (rs : List (String × JSVal)),
        (∀ p ∈ rs, ∃ gs, p.2 = JSVal.obj gs) →
        getMergedResult ((k, JSVal.obj fs) :: rs) =
          .ok (.obj (rs.foldl (fun acc q => objSpread acc q.2.objEntries)
            (objSpread [] fs)))) ∧
      (∀ (k : String) (xs : List JSVal) (rs : List (String × JSVal)),
        (∀ p ∈ rs, ∃ ys, p.2 = JSVal.arr ys) →
        getMergedResult ((k, JSVal.arr xs) :: rs) =
          .ok (.arr (rs.foldl (fun acc q => acc ++ q.2.arrElems) xs))) ∧
      getMergedResult [("A", .obj [("a", .num 1)]), ("B", .obj [("b", .num 2)])]
        = .ok (.obj [("a", .num 1), ("b", .num 2)]) ∧
      getMergedResult [("A", .arr [.num 1]), ("B", .arr [.num 2])]
        = .ok (.arr [.num 1, .num 2]) := by
  refine ⟨fun k fs rs h => ?_, fun k xs rs h => ?_, rfl, rfl⟩
  · show mergeFold JSVal.null ((k, JSVal.obj fs) :: rs) = _
    simp only [mergeFold]
    have hstep : mergeStep JSVal.null (JSVal.obj fs)
        = .ok (.obj (objSpread [] fs)) := rfl
    rw [hstep]
    exact mergeFold_objs rs h (objSpread [] fs)
  · show mergeFold JSVal.null ((k, JSVal.arr xs) :: rs) = _
    simp only [mergeFold]
    have hstep : mergeStep JSVal.null (JSVal.arr xs) = .ok (.arr xs) := rfl
    rw [hstep]
    exact mergeFold_arrs rs h xs

/-- Witness for `c4_merge_law` at concrete inputs: three objects shallow-merge
in order with later keys overwriting, three arrays concatenate in order. -/
theorem c4_merge_law_witness :
    (∀ p ∈ [("B", JSVal.obj [("b", JSVal.num 2)]),
            ("C", JSVal.obj [("a", JSVal.num 7)])],
        ∃ gs, p.2 = JSVal.obj gs) ∧
      getMergedResult [("A", .obj [("a", .num 1)]), ("B", .obj [("b", .num 2)]),
          ("C", .obj [("a", .num 7)])]
        = .ok (.obj [("a", .num 7), ("b", .num 2)]) ∧
      (∀ p ∈ [("B", JSVal.arr [JSVal.num 2])], ∃ ys, p.2 = JSVal.arr ys) ∧
      getMergedResult [("A", .arr [.num 1]), ("B", .arr [.num 2])]
        = .ok (.arr [.num 1, .num 2]) := by
  refine ⟨?_, ?_, ?_, ?_⟩
  · rintro p hp
    simp only [List.mem_cons, List.not_mem_nil, or_false] at hp
    rcases hp with h | h <;> exact ⟨_, by rw [h]⟩
  · exact c4_merge_law.1 "A" [("a", .num 1)]
      [("B", .obj [("b", .num 2)]), ("C", .obj [("a", .num 7)])]
      (by rintro p hp
          simp only [List.mem_cons, List.not_mem_nil, or_false] at hp
          rcases hp with h | h <;> exact ⟨_, by rw [h]⟩)
  · rintro p hp
    simp only [List.mem_cons, List.not_mem_nil, or_false] at hp
    exact ⟨_, by rw [hp]⟩
  · exact c4_merge_law.2.1 "A" [.num 1] [("B", .arr [.num 2])]
      (by rintro p hp
          simp only [List.mem_cons, List.not_mem_nil, or_false] at hp
          exact ⟨_, by rw [hp]⟩)

/-- C10 counterexample: the claim says that whenever an array-valued result
occurs after a plain-object-valued (or numeric) result in iteration order, the
array-merge branch raises a `TypeError`.  In the mapping
`{A: {a:1}, B: null, C: [2]}` the array `[2]` occurs after the plain object
`{a:1}`, yet no error is raised: the intervening `null` is written to the
accumulator by the scalar branch, and the array branch replaces the falsy
accumulator with `[]` (`mergedResult || []`), producing `[2]`. -/
theorem c10_merge_totality_counterexample :
    getMergedResult
        [("A", .obj [("a", .num 1)]), ("B", .null), ("C", .arr [.num 2])]
      = .ok (.arr [.num 2]) := rfl

/-- C10 amended: the array-merge branch raises a `TypeError` exactly when the
accumulated merge at that point is truthy and not iterable; in particular an
array-valued result processed while the accumulator is a plain object or a
nonzero number raises, while a falsy accumulator (such as `null` left by an
intervening null result) is replaced by `[]` and does not raise; for an empty
results mapping `getMergedResult` returns `null`. -/
theorem c10_merge_totality_amended :
    getMergedResult ([] : List (String × JSVal)) = .ok .null ∧
      (∀ (k1 k2 : String) (fs : List (String × JSVal)) (l : List JSVal),
        getMergedResult [(k1, .obj fs), (k2, .arr l)] = .error .notIterable) ∧
      (∀ (k1 k2 : String) (n : Int) (l : List JSVal), n ≠ 0 →
        getMergedResult [(k1, .num n), (k2, .arr l)] = .error .notIterable) ∧
      (∀ (rs : List (String × JSVal)) (k : String) (l : List JSVal) (acc : JSVal),
        getMergedResult rs = .ok acc → acc.truthy = false →
        getMergedResult (rs ++ [(k, .arr l)]) = .ok (.arr l)) := by
  refine ⟨rfl, fun k1 k2 fs l => rfl, fun k1 k2 n l hn => ?_, ?_⟩
  · show mergeFold JSVal.null [(k1, .num n), (k2, .arr l)] = _
    simp only [mergeFold]
    have h1 : mergeStep JSVal.null (.num n) = .ok (.num n) :=
      mergeStep_scalar _ _
        (by simp [isDefinedScalar, JSVal.isArray, JSVal.typeOf, JSVal.truthy])
    rw [h1]
    simp only [mergeFold]
    have htr : (JSVal.num n).truthy = true := by
      simp [JSVal.truthy, hn]
    simp [mergeStep, JSVal.isArray, htr, JSVal.iterElems]
  · intro rs k l acc hrs hacc
    rw [getMergedResult_append rs (k, .arr l) acc hrs]
    simp [mergeStep, JSVal.isArray, hacc, JSVal.iterElems]

/-- Witness for `c10_merge_totality_amended` at concrete inputs. -/
theorem c10_merge_totality_amended_witness :
    ((7 : Int) ≠ 0) ∧
      getMergedResult [("A", .num 7), ("B", .arr [.num 2])]
        = .error .notIterable ∧
      getMergedResult [("A", JSVal.null)] = .ok .null ∧
      JSVal.truthy .null = false ∧
      getMergedResult [("A", JSVal.null), ("B", .arr [.num 3])]
        = .ok (.arr [.num 3]) :=
  ⟨by decide,
    c10_merge_totality_amended.2.2.1 "A" "B" 7 [.num 2] (by decide),
    rfl, rfl,
    c10_merge_totality_amended.2.2.2 [("A", JSVal.null)] "B" [.num 3]
      .null rfl rfl⟩

/-- C9: when `handleQueries` reaches the cold path for a relevant provider
whose replication tree yields no `handleQuery` function (`getQueryHandler`
finds none), the call raises an error — in JS, the `TypeError` from
destructuring `null` at line 641 — rather than silently completing with the
join counter unresolved. -/
theorem c9_missing_handler_raises
    (w : QueryWorld) (inp : HQInput) (key : String) (q : JSVal)
    (provider : QProvider)
    (hq : inp.queries = some [(key, q)])
    (hprov : List.lookup key w.providers = some provider)
    (hnohandler : getQueryHandler provider = none)
    (hcold : List.lookup (resultKeyOf inp (key, q)) w.queryResults = none)
    (hnoflight : List.lookup (resultKeyOf inp (key, q)) w.activeQueries = none) :
    handleQueries w inp = .error (.noQueryHandler key) := by
  unfold handleQueries
  rw [hq]
  simp only [processQueries, processEntry, emitQ, QueryWorld.setConsumer]
  rw [hcold, hprov]
  cases hpw : provider.hasWait <;>
    simp only [hpw, emitQ, Bool.false_eq_true, if_true, if_false, reduceIte] <;>
    rw [hnoflight, hnohandler]

/-- Witness for `c9_missing_handler_raises`: a provider without any
replication config, queried cold. -/
theorem c9_missing_handler_raises_witness :
    (({ consumer := 1, query := .null,
        queries := some [("p", .obj [("x", .num 1)])], queryOptions := .null,
        queriesOptions := [], hasCallback := true, hasUpdate := false }
          : HQInput).queries = some [("p", .obj [("x", .num 1)])]) ∧
      getQueryHandler ⟨"p", ["x"], false, false, none⟩ = none ∧
      handleQueries
        ⟨[("p", ⟨"p", ["x"], false, false, none⟩)], [], [], [(1, freshConsumer)], []⟩
        { consumer := 1, query := .null,
          queries := some [("p", .obj [("x", .num 1)])], queryOptions := .null,
          queriesOptions := [], hasCallback := true, hasUpdate := false }
        = .error (.noQueryHandler "p") :=
  ⟨rfl, rfl,
    c9_missing_handler_raises _ _ "p" (.obj [("x", .num 1)])
      ⟨"p", ["x"], false, false, none⟩ rfl rfl rfl rfl rfl⟩

/-! ### Association-list lookup lemmas -/

theorem lookup_alSet_self {α β : Type} [DecidableEq α] (l : List (α × β))
    (k : α) (v : β) : List.lookup k (alSet l k v) = some v := by
  induction l with
  | nil => simp [alSet, List.lookup]
  | cons hd tl ih =>
      cases hd with
      | mk k' v' =>
          by_cases h : k' = k
          · subst h
            simp [alSet, List.lookup]
          · have hb : (k == k') = false :=
              beq_eq_false_iff_ne.mpr fun hh => h hh.symm
            simp [alSet, h, List.lookup, hb, ih]

theorem lookup_alSet_ne {α β : Type} [DecidableEq α] (l : List (α × β))
    {k k' : α} (v : β) (h : k' ≠ k) :
    List.lookup k' (alSet l k v) = List.lookup k' l := by
  have hb : (k' == k) = false := beq_eq_false_iff_ne.mpr h
  induction l with
  | nil => simp [alSet, List.lookup, hb]
  | cons hd tl ih =>
      cases hd with
      | mk a b =>
          by_cases ha : a = k
          · subst ha
            simp [alSet, List.lookup, hb]
          · simp [alSet, ha, List.lookup, ih]

/-! ### Projection lemmas: which parts of the world each helper touches -/

@[simp] theorem heap_emit (w : IWorld) (e : IEvent) : (w.emit e).heap = w.heap := rfl

@[simp] theorem heap_setDef (w : IWorld) (k : String) (d : PDef) :
    (w.setDef k d).heap = w.heap := rfl

@[simp] theorem heap_fireListener (w : IWorld) (l : Listener) :
    (fireListener w l).heap = w.heap := rfl

@[simp] theorem heap_fireListeners (ps : List (Nat × Listener)) :
    ∀ w : IWorld, (fireListeners w ps).heap = w.heap := by
  induction ps with
  | nil => intro w; rfl
  | cons hd tl ih => intro w; simp [fireListeners, ih]

@[simp] theorem heap_wireOneSubscriber (w : IWorld) (pk : String) (i : Nat)
    (sk : String) (h : Nat) : (wireOneSubscriber w pk i sk h).heap = w.heap := by
  cases hd : w.getDef sk <;> simp [wireOneSubscriber, hd]

@[simp] theorem heap_wireSubscribersList (pk : String) (i : Nat)
    (l : List (String × Nat)) :
    ∀ w : IWorld, (wireSubscribersList pk i w l).heap = w.heap := by
  induction l with
  | nil => intro w; rfl
  | cons hd tl ih => intro w; cases hd; simp [wireSubscribersList, ih]

@[simp] theorem heap_subscribeSupInstances (h : Nat) (pk : String)
    (l : List Nat) :
    ∀ w : IWorld, (subscribeSupInstances h pk w l).heap = w.heap := by
  induction l with
  | nil => intro w; rfl
  | cons hd tl ih => intro w; simp [subscribeSupInstances, ih]

@[simp] theorem heap_wireOneSubscribeTo (w : IWorld) (pk : String) (i : Nat)
    (sk : String) (h : Nat) : (wireOneSubscribeTo w pk i sk h).heap = w.heap := by
  cases hd : w.getDef sk <;>
    simp [wireOneSubscribeTo, hd] <;>
    split <;> simp

@[simp] theorem heap_wireSubscribeToList (pk : String) (i : Nat)
    (l : List (String × Nat)) :
    ∀ w : IWorld, (wireSubscribeToList pk i w l).heap = w.heap := by
  induction l with
  | nil => intro w; rfl
  | cons hd tl ih => intro w; cases hd; simp [wireSubscribeToList, ih]

@[simp] theorem heap_defInstancesPush (w : IWorld) (k : String) (i : Nat) :
    (defInstancesPush w k i).heap = w.heap := by
  cases hd : w.getDef k <;> simp [defInstancesPush, hd]

theorem sigAt_of_heap_eq {w w' : IWorld} (h : w'.heap = w.heap) (j : Nat) :
    sigAt w' j = sigAt w j := by
  simp [sigAt, IWorld.heapGet, h]

@[simp] theorem sigAt_emit (w : IWorld) (e : IEvent) (j : Nat) :
    sigAt (w.emit e) j = sigAt w j := rfl

theorem sigAt_heapMod (w : IWorld) (i : Nat) (f : Instance → Instance)
    (hf : ∀ inst, (f inst).providerKey = inst.providerKey ∧
      (f inst).isStatic = inst.isStatic) (j : Nat) :
    sigAt (w.heapMod i f) j = sigAt w j := by
  unfold IWorld.heapMod
  cases hg : w.heap.get? i with
  | none => rfl
  | some inst =>
      by_cases hij : i = j
      · subst hij
        obtain ⟨h1, h2⟩ := hf inst
        have hg' : w.heap[i]? = some inst := by
          rw [← List.get?_eq_getElem?]
          exact hg
        simp [sigAt, IWorld.heapGet, List.getElem?_set_self', hg', h1, h2,
          List.get?_eq_getElem?, Function.const]
      · simp [sigAt, IWorld.heapGet, List.get?_eq_getElem?,
          List.getElem?_set_ne hij]

@[simp] theorem sigAt_pushOnReady (w : IWorld) (i : Nat) (cb : ReadyCb) (j : Nat) :
    sigAt (pushOnReady w i cb) j = sigAt w j := by
  unfold pushOnReady
  exact sigAt_heapMod w i
    (fun inst => { inst with onReady := inst.onReady ++ [cb] })
    (fun _ => ⟨rfl, rfl⟩) j

@[simp] theorem sigAt_unshiftOnReady (w : IWorld) (i : Nat) (cb : ReadyCb) (j : Nat) :
    sigAt (unshiftOnReady w i cb) j = sigAt w j := by
  unfold unshiftOnReady
  exact sigAt_heapMod w i
    (fun inst => { inst with onReady := cb :: inst.onReady })
    (fun _ => ⟨rfl, rfl⟩) j

@[simp] theorem sigAt_runReadyCbs (i : Nat) (cbs : List ReadyCb) :
    ∀ (w : IWorld) (j : Nat), sigAt (runReadyCbs i w cbs) j = sigAt w j := by
  induction cbs with
  | nil => intro w j; rfl
  | cons hd tl ih =>
      intro w j
      cases hd with
      | setReadyFlag =>
          rw [runReadyCbs, ih]
          exact sigAt_heapMod w i
            (fun inst => { inst with ready := true })
            (fun _ => ⟨rfl, rfl⟩) j
      | user c => rw [runReadyCbs, ih, sigAt_emit]

@[simp] theorem sigAt_runDone (w : IWorld) (i : Nat) (j : Nat) :
    sigAt (runDone w i) j = sigAt w j := by
  cases hg : w.heapGet i with
  | none => simp [runDone, hg]
  | some inst =>
      simp only [runDone, hg]
      split <;> simp

/-! Projections of the instance tables and the `providers` registry through
the helpers that do not touch them. -/

@[simp] theorem glob_heapMod (w : IWorld) (i : Nat) (f : Instance → Instance) :
    (w.heapMod i f).globalProviderInstances = w.globalProviderInstances := by
  unfold IWorld.heapMod
  cases w.heap.get? i <;> rfl

@[simp] theorem prov_heapMod (w : IWorld) (i : Nat) (f : Instance → Instance) :
    (w.heapMod i f).providerInstances = w.providerInstances := by
  unfold IWorld.heapMod
  cases w.heap.get? i <;> rfl

@[simp] theorem providers_heapMod (w : IWorld) (i : Nat) (f : Instance → Instance) :
    (w.heapMod i f).providers = w.providers := by
  unfold IWorld.heapMod
  cases w.heap.get? i <;> rfl

@[simp] theorem events_heapMod (w : IWorld) (i : Nat) (f : Instance → Instance) :
    (w.heapMod i f).events = w.events := by
  unfold IWorld.heapMod
  cases w.heap.get? i <;> rfl

@[simp] theorem glob_fireListeners (ps : List (Nat × Listener)) :
    ∀ w : IWorld, (fireListeners w ps).globalProviderInstances =
      w.globalProviderInstances := by
  induction ps with
  | nil => intro w; rfl
  | cons hd tl ih => intro w; simp [fireListeners, ih, fireListener]

@[simp] theorem prov_fireListeners (ps : List (Nat × Listener)) :
    ∀ w : IWorld, (fireListeners w ps).providerInstances = w.providerInstances := by
  induction ps with
  | nil => intro w; rfl
  | cons hd tl ih => intro w; simp [fireListeners, ih, fireListener]

@[simp] theorem providers_fireListeners (ps : List (Nat × Listener)) :
    ∀ w : IWorld, (fireListeners w ps).providers = w.providers := by
  induction ps with
  | nil => intro w; rfl
  | cons hd tl ih => intro w; simp [fireListeners, ih, fireListener]

@[simp] theorem glob_wireOneSubscriber (w : IWorld) (pk : String) (i : Nat)
    (sk : String) (h : Nat) :
    (wireOneSubscriber w pk i sk h).globalProviderInstances =
      w.globalProviderInstances := by
  cases hd : w.getDef sk <;> simp [wireOneSubscriber, hd, IWorld.setDef, fireListener]

@[simp] theorem prov_wireOneSubscriber (w : IWorld) (pk : String) (i : Nat)
    (sk : String) (h : Nat) :
    (wireOneSubscriber w pk i sk h).providerInstances = w.providerInstances := by
  cases hd : w.getDef sk <;> simp [wireOneSubscriber, hd, IWorld.setDef, fireListener]

@[simp] theorem glob_wireSubscribersList (pk : String) (i : Nat)
    (l : List (String × Nat)) :
    ∀ w : IWorld, (wireSubscribersList pk i w l).globalProviderInstances =
      w.globalProviderInstances := by
  induction l with
  | nil => intro w; rfl
  | cons hd tl ih => intro w; cases hd; simp [wireSubscribersList, ih]

@[simp] theorem prov_wireSubscribersList (pk : String) (i : Nat)
    (l : List (String × Nat)) :
    ∀ w : IWorld, (wireSubscribersList pk i w l).providerInstances =
      w.providerInstances := by
  induction l with
  | nil => intro w; rfl
  | cons hd tl ih => intro w; cases hd; simp [wireSubscribersList, ih]

@[simp] theorem glob_subscribeSupInstances (h : Nat) (pk : String) (l : List Nat) :
    ∀ w : IWorld, (subscribeSupInstances h pk w l).globalProviderInstances =
      w.globalProviderInstances := by
  induction l with
  | nil => intro w; rfl
  | cons hd tl ih => intro w; simp [subscribeSupInstances, ih]

@[simp] theorem prov_subscribeSupInstances (h : Nat) (pk : String) (l : List Nat) :
    ∀ w : IWorld, (subscribeSupInstances h pk w l).providerInstances =
      w.providerInstances := by
  induction l with
  | nil => intro w; rfl
  | cons hd tl ih => intro w; simp [subscribeSupInstances, ih]

@[simp] theorem providers_subscribeSupInstances (h : Nat) (pk : String)
    (l : List Nat) :
    ∀ w : IWorld, (subscribeSupInstances h pk w l).providers = w.providers := by
  induction l with
  | nil => intro w; rfl
  | cons hd tl ih => intro w; simp [subscribeSupInstances, ih]

@[simp] theorem glob_wireOneSubscribeTo (w : IWorld) (pk : String) (i : Nat)
    (sk : String) (h : Nat) :
    (wireOneSubscribeTo w pk i sk h).globalProviderInstances =
      w.globalProviderInstances := by
  cases hd : w.getDef sk <;>
    simp only [wireOneSubscribeTo, hd] <;>
    first
    | rfl
    | (split <;> simp [IWorld.setDef])

@[simp] theorem prov_wireOneSubscribeTo (w : IWorld) (pk : String) (i : Nat)
    (sk : String) (h : Nat) :
    (wireOneSubscribeTo w pk i sk h).providerInstances = w.providerInstances := by
  cases hd : w.getDef sk <;>
    simp only [wireOneSubscribeTo, hd] <;>
    first
    | rfl
    | (split <;> simp [IWorld.setDef])

@[simp] theorem glob_wireSubscribeToList (pk : String) (i : Nat)
    (l : List (String × Nat)) :
    ∀ w : IWorld, (wireSubscribeToList pk i w l).globalProviderInstances =
      w.globalProviderInstances := by
  induction l with
  | nil => intro w; rfl
  | cons hd tl ih => intro w; cases hd; simp [wireSubscribeToList, ih]

@[simp] theorem prov_wireSubscribeToList (pk : String) (i : Nat)
    (l : List (String × Nat)) :
    ∀ w : IWorld, (wireSubscribeToList pk i w l).providerInstances =
      w.providerInstances := by
  induction l with
  | nil => intro w; rfl
  | cons hd tl ih => intro w; cases hd; simp [wireSubscribeToList, ih]

@[simp] theorem glob_defInstancesPush (w : IWorld) (k : String) (i : Nat) :
    (defInstancesPush w k i).globalProviderInstances =
      w.globalProviderInstances := by
  cases hd : w.getDef k <;> simp [defInstancesPush, hd, IWorld.setDef]

@[simp] theorem prov_defInstancesPush (w : IWorld) (k : String) (i : Nat) :
    (defInstancesPush w k i).providerInstances = w.providerInstances := by
  cases hd : w.getDef k <;> simp [defInstancesPush, hd, IWorld.setDef]

@[simp] theorem glob_runReadyCbs (i : Nat) (cbs : List ReadyCb) :
    ∀ w : IWorld, (runReadyCbs i w cbs).globalProviderInstances =
      w.globalProviderInstances := by
  induction cbs with
  | nil => intro w; rfl
  | cons hd tl ih =>
      intro w
      cases hd <;> simp [runReadyCbs, ih, IWorld.emit]

@[simp] theorem prov_runReadyCbs (i : Nat) (cbs : List ReadyCb) :
    ∀ w : IWorld, (runReadyCbs i w cbs).providerInstances =
      w.providerInstances := by
  induction cbs with
  | nil => intro w; rfl
  | cons hd tl ih =>
      intro w
      cases hd <;> simp [runReadyCbs, ih, IWorld.emit]

@[simp] theorem providers_runReadyCbs (i : Nat) (cbs : List ReadyCb) :
    ∀ w : IWorld, (runReadyCbs i w cbs).providers = w.providers := by
  induction cbs with
  | nil => intro w; rfl
  | cons hd tl ih =>
      intro w
      cases hd <;> simp [runReadyCbs, ih, IWorld.emit]

@[simp] theorem glob_runDone (w : IWorld) (i : Nat) :
    (runDone w i).globalProviderInstances = w.globalProviderInstances := by
  cases hg : w.heapGet i with
  | none => simp [runDone, hg]
  | some inst =>
      simp only [runDone, hg]
      split <;> simp [IWorld.emit]

@[simp] theorem prov_runDone (w : IWorld) (i : Nat) :
    (runDone w i).providerInstances = w.providerInstances := by
  cases hg : w.heapGet i with
  | none => simp [runDone, hg]
  | some inst =>
      simp only [runDone, hg]
      split <;> simp [IWorld.emit]

@[simp] theorem providers_runDone (w : IWorld) (i : Nat) :
    (runDone w i).providers = w.providers := by
  cases hg : w.heapGet i with
  | none => simp [runDone, hg]
  | some inst =>
      simp only [runDone, hg]
      split <;> simp [IWorld.emit]

@[simp] theorem sigAt_setDef (w : IWorld) (k : String) (d : PDef) (j : Nat) :
    sigAt (w.setDef k d) j = sigAt w j := rfl

@[simp] theorem sigAt_wireSubscribersList (pk : String) (i : Nat)
    (l : List (String × Nat)) (w : IWorld) (j : Nat) :
    sigAt (wireSubscribersList pk i w l) j = sigAt w j :=
  sigAt_of_heap_eq (heap_wireSubscribersList pk i l w) j

@[simp] theorem sigAt_wireSubscribeToList (pk : String) (i : Nat)
    (l : List (String × Nat)) (w : IWorld) (j : Nat) :
    sigAt (wireSubscribeToList pk i w l) j = sigAt w j :=
  sigAt_of_heap_eq (heap_wireSubscribeToList pk i l w) j

@[simp] theorem sigAt_defInstancesPush (w : IWorld) (k : String) (i : Nat)
    (j : Nat) : sigAt (defInstancesPush w k i) j = sigAt w j :=
  sigAt_of_heap_eq (heap_defInstancesPush w k i) j

@[simp] theorem sigAt_mk_append (ps : List (String × PDef))
    (g p : List (String × Nat)) (hp : List Instance)
    (ls : List (Nat × Listener)) (es : List IEvent) (inst : Instance) :
    sigAt ⟨ps, g, p, hp ++ [inst], ls, es⟩ hp.length
      = some (inst.providerKey, inst.isStatic) := by
  simp [sigAt, IWorld.heapGet, List.get?_concat_length]

/-! ### Definition-identity (`defSig`) preservation -/

theorem defSig_of_providers_eq {w w' : IWorld} (h : w'.providers = w.providers) :
    ∀ k', defSig w' k' = defSig w k' := by
  intro k'
  simp [defSig, IWorld.getDef, h]

theorem defSig_setDef (w : IWorld) (k : String) (d0 d : PDef)
    (hd : w.getDef k = some d0) (hk : d.key = d0.key)
    (hg : d.isGlobal = d0.isGlobal) :
    ∀ k', defSig (w.setDef k d) k' = defSig w k' := by
  intro k'
  by_cases h : k' = k
  · subst h
    simp only [defSig, IWorld.getDef, IWorld.setDef, lookup_alSet_self]
    rw [show List.lookup k' w.providers = some d0 from hd]
    simp [hk, hg]
  · simp only [defSig, IWorld.getDef, IWorld.setDef]
    rw [lookup_alSet_ne _ d h]

theorem defSig_wireOneSubscriber (w : IWorld) (pk : String) (i : Nat)
    (sk : String) (h : Nat) (k' : String) :
    defSig (wireOneSubscriber w pk i sk h) k' = defSig w k' := by
  cases hd : w.getDef sk with
  | none => simp [wireOneSubscriber, hd]
  | some sub =>
      simp only [wireOneSubscriber, hd]
      by_cases hk : k' = sk
      · subst hk
        simp only [defSig, IWorld.getDef, IWorld.setDef, fireListener,
          lookup_alSet_self]
        rw [show List.lookup k' w.providers = some sub from hd]
        rfl
      · simp [defSig, IWorld.getDef, IWorld.setDef, fireListener,
          lookup_alSet_ne _ _ hk]

theorem defSig_wireSubscribersList (pk : String) (i : Nat)
    (l : List (String × Nat)) :
    ∀ (w : IWorld) (k' : String),
      defSig (wireSubscribersList pk i w l) k' = defSig w k' := by
  induction l with
  | nil => intro w k'; rfl
  | cons hd tl ih =>
      intro w k'
      cases hd with
      | mk sk h =>
          rw [wireSubscribersList, ih, defSig_wireOneSubscriber]

theorem defSig_wireOneSubscribeTo (w : IWorld) (pk : String) (i : Nat)
    (sk : String) (h : Nat) (k' : String) :
    defSig (wireOneSubscribeTo w pk i sk h) k' = defSig w k' := by
  cases hd : w.getDef sk with
  | none => simp [wireOneSubscribeTo, hd]
  | some sub =>
      simp only [wireOneSubscribeTo, hd]
      split
      · exact defSig_of_providers_eq (by simp) k'
      · by_cases hk : k' = sk
        · subst hk
          simp only [defSig, IWorld.getDef, IWorld.setDef,
            lookup_alSet_self, providers_subscribeSupInstances]
          rw [show List.lookup k' w.providers = some sub from hd]
          rfl
        · simp [defSig, IWorld.getDef, IWorld.setDef,
            lookup_alSet_ne _ _ hk]

theorem defSig_wireSubscribeToList (pk : String) (i : Nat)
    (l : List (String × Nat)) :
    ∀ (w : IWorld) (k' : String),
      defSig (wireSubscribeToList pk i w l) k' = defSig w k' := by
  induction l with
  | nil => intro w k'; rfl
  | cons hd tl ih =>
      intro w k'
      cases hd with
      | mk sk h =>
          rw [wireSubscribeToList, ih, defSig_wireOneSubscribeTo]

theorem defSig_defInstancesPush (w : IWorld) (k : String) (i : Nat)
    (k' : String) : defSig (defInstancesPush w k i) k' = defSig w k' := by
  cases hd : w.getDef k with
  | none => simp [defInstancesPush, hd]
  | some d =>
      simp only [defInstancesPush, hd]
      by_cases hk : k' = k
      · subst hk
        simp only [defSig, IWorld.getDef, IWorld.setDef, lookup_alSet_self]
        rw [show List.lookup k' w.providers = some d from hd]
        rfl
      · simp [defSig, IWorld.getDef, IWorld.setDef, lookup_alSet_ne _ _ hk]

/-! ### Creation-event counting -/

theorem countSC_append (a b : List IEvent) :
    countStoreCreated (a ++ b) = countStoreCreated a + countStoreCreated b := by
  simp [countStoreCreated, List.filter_append]

theorem countWR_append (a b : List IEvent) (k : String) :
    countWaitRun (a ++ b) k = countWaitRun a k + countWaitRun b k := by
  simp [countWaitRun, List.filter_append]

theorem counts_events_eq {w w' : IWorld} (k : String)
    (h : w'.events = w.events) : creationCounts w' k = creationCounts w k := by
  simp [creationCounts, h]

theorem counts_handlerFired_map (w : IWorld) (k : String) (f : Nat → IEvent)
    (hf : ∀ b, (match f b with
      | .storeCreated _ => False
      | .waitRun _ => False
      | _ => True))
    (l : List Nat) :
    creationCounts { w with events := w.events ++ l.map f } k
      = creationCounts w k := by
  have hsc : countStoreCreated (l.map f) = 0 := by
    simp only [countStoreCreated, List.length_eq_zero, List.filter_eq_nil]
    intro a ha
    obtain ⟨b, _, rfl⟩ := List.mem_map.mp ha
    have := hf b
    cases hr : f b <;> simp_all
  have hwr : countWaitRun (l.map f) k = 0 := by
    simp only [countWaitRun, List.length_eq_zero, List.filter_eq_nil]
    intro a ha
    obtain ⟨b, _, rfl⟩ := List.mem_map.mp ha
    have := hf b
    cases hr : f b <;> simp_all
  show (countStoreCreated (w.events ++ l.map f),
        countWaitRun (w.events ++ l.map f) k) = _
  rw [countSC_append, countWR_append, hsc, hwr]
  rfl

theorem counts_fireListener (w : IWorld) (l : Listener) (k : String) :
    creationCounts (fireListener w l) k = creationCounts w k :=
  counts_handlerFired_map w k _ (fun b => by simp) _

theorem counts_fireListeners (ps : List (Nat × Listener)) :
    ∀ (w : IWorld) (k : String),
      creationCounts (fireListeners w ps) k = creationCounts w k := by
  induction ps with
  | nil => intro w k; rfl
  | cons hd tl ih =>
      intro w k
      rw [fireListeners, ih, counts_fireListener]

theorem counts_wireOneSubscriber (w : IWorld) (pk : String) (i : Nat)
    (sk : String) (h : Nat) (k : String) :
    creationCounts (wireOneSubscriber w pk i sk h) k = creationCounts w k := by
  cases hd : w.getDef sk with
  | none => simp [wireOneSubscriber, hd]
  | some sub =>
      simp only [wireOneSubscriber, hd]
      exact (counts_fireListener _ _ k).trans
        (counts_events_eq k (by simp [IWorld.setDef]))

theorem counts_wireSubscribersList (pk : String) (i : Nat)
    (l : List (String × Nat)) :
    ∀ (w : IWorld) (k : String),
      creationCounts (wireSubscribersList pk i w l) k = creationCounts w k := by
  induction l with
  | nil => intro w k; rfl
  | cons hd tl ih =>
      intro w k
      cases hd with
      | mk sk h => rw [wireSubscribersList, ih, counts_wireOneSubscriber]

theorem counts_subscribeSupInstances (h : Nat) (pk : String) (l : List Nat) :
    ∀ (w : IWorld) (k : String),
      creationCounts (subscribeSupInstances h pk w l) k = creationCounts w k := by
  induction l with
  | nil => intro w k; rfl
  | cons hd tl ih =>
      intro w k
      rw [subscribeSupInstances, ih]
      exact counts_events_eq k rfl

theorem counts_wireOneSubscribeTo (w : IWorld) (pk : String) (i : Nat)
    (sk : String) (h : Nat) (k : String) :
    creationCounts (wireOneSubscribeTo w pk i sk h) k = creationCounts w k := by
  cases hd : w.getDef sk with
  | none => simp [wireOneSubscribeTo, hd]
  | some sub =>
      simp only [wireOneSubscribeTo, hd]
      split
      · exact counts_handlerFired_map w k _ (fun b => by simp) _
      · refine Eq.trans
          (counts_handlerFired_map _ k _ (fun b => by simp) _) ?_
        exact (counts_subscribeSupInstances h pk _ _ k).trans
          (counts_events_eq k (by simp [IWorld.setDef]))

theorem counts_wireSubscribeToList (pk : String) (i : Nat)
    (l : List (String × Nat)) :
    ∀ (w : IWorld) (k : String),
      creationCounts (wireSubscribeToList pk i w l) k = creationCounts w k := by
  induction l with
  | nil => intro w k; rfl
  | cons hd tl ih =>
      intro w k
      cases hd with
      | mk sk h => rw [wireSubscribeToList, ih, counts_wireOneSubscribeTo]

theorem counts_defInstancesPush (w : IWorld) (dk : String) (i : Nat) (k : String) :
    creationCounts (defInstancesPush w dk i) k = creationCounts w k := by
  cases hd : w.getDef dk with
  | none => simp [defInstancesPush, hd]
  | some d => simp [defInstancesPush, hd, IWorld.setDef, creationCounts]

theorem counts_heapMod (w : IWorld) (i : Nat) (f : Instance → Instance)
    (k : String) : creationCounts (w.heapMod i f) k = creationCounts w k := by
  unfold IWorld.heapMod
  cases w.heap.get? i <;> rfl

theorem counts_emit_other (w : IWorld) (e : IEvent) (k : String)
    (he : (match e with
      | .storeCreated _ => False
      | .waitRun _ => False
      | _ => True)) :
    creationCounts (w.emit e) k = creationCounts w k := by
  simp only [creationCounts, IWorld.emit, countSC_append, countWR_append]
  cases e <;> simp_all [countStoreCreated, countWaitRun, List.filter]

theorem counts_runReadyCbs (i : Nat) (cbs : List ReadyCb) :
    ∀ (w : IWorld) (k : String),
      creationCounts (runReadyCbs i w cbs) k = creationCounts w k := by
  induction cbs with
  | nil => intro w k; rfl
  | cons hd tl ih =>
      intro w k
      cases hd with
      | setReadyFlag => rw [runReadyCbs, ih, counts_heapMod]
      | user c =>
          rw [runReadyCbs, ih]
          exact counts_emit_other w _ k (by simp)

theorem counts_runDone (w : IWorld) (i : Nat) (k : String) :
    creationCounts (runDone w i) k = creationCounts w k := by
  cases hg : w.heapGet i with
  | none => simp [runDone, hg]
  | some inst =>
      simp only [runDone, hg]
      split
      · exact (counts_emit_other _ _ k (by simp)).trans
          (counts_runReadyCbs i inst.onReady w k)
      · exact counts_runReadyCbs i inst.onReady w k

/-- C5 counterexample: the claim says `isStatic` is true iff the resolved
runtime key equals the definition's key, including when the key argument is a
literal string different from the definition's key.  For a definition with
key `"a"` instantiated with the literal key `"b"`, the code sets
`isStatic = typeof providerKey !== 'function'`, i.e. `true`, although the
resolved key `"b"` differs from `"a"`. -/
theorem c5_isStatic_counterexample :
    (instantiateProvider
        ⟨[("a", ⟨"a", false, false, false, false, false, none, none, none⟩)],
          [], [], [], [], []⟩ "a" (.literal "b") none).2 = some 0 ∧
      sigAt (instantiateProvider
        ⟨[("a", ⟨"a", false, false, false, false, false, none, none, none⟩)],
          [], [], [], [], []⟩ "a" (.literal "b") none).1 0 = some ("b", true) ∧
      ("b" : String) ≠ "a" :=
  ⟨rfl, rfl, by decide⟩

/-- C5 amended: the created instance's `isStatic` is true iff the
`providerKey` argument was not a function (absent or literal — even a literal
different from the definition's key), or it was a key function whose computed
key equals the definition's key; its `providerKey` is the resolved runtime
key. -/
theorem c5_isStatic_amended
    (w : IWorld) (defKey : String) (provider : PDef) (keyArg : KeyArg)
    (readyCb : Option Nat)
    (hdef : w.getDef defKey = some provider)
    (hmiss : lookupInstance w provider.isGlobal (resolveKey provider keyArg)
      = none) :
    (instantiateProvider w defKey keyArg readyCb).2 = some w.heap.length ∧
      sigAt (instantiateProvider w defKey keyArg readyCb).1 w.heap.length
        = some (resolveKey provider keyArg, staticFor provider keyArg) := by
  unfold instantiateProvider
  cases hthunk : provider.hasThunk <;>
    cases hwait : provider.hasWait <;>
    cases hglob : provider.isGlobal <;>
    cases hdefer : provider.replicationDefers <;>
    cases readyCb <;>
    rw [hglob] at hmiss <;>
    simp [hdef, hmiss, hthunk, hwait, hglob, hdefer, IWorld.emit, IWorld.setDef]

/-- Witness for `c5_isStatic_amended`: a dynamically computed key equal to
the definition's key is marked static. -/
theorem c5_isStatic_amended_witness :
    ((⟨[("a", ⟨"a", false, false, false, false, false, none, none, none⟩)],
        [], [], [], [], []⟩ : IWorld).getDef "a"
      = some ⟨"a", false, false, false, false, false, none, none, none⟩) ∧
      (instantiateProvider
        ⟨[("a", ⟨"a", false, false, false, false, false, none, none, none⟩)],
          [], [], [], [], []⟩ "a" (.keyFn "a") none).2 = some 0 ∧
      sigAt (instantiateProvider
        ⟨[("a", ⟨"a", false, false, false, false, false, none, none, none⟩)],
          [], [], [], [], []⟩ "a" (.keyFn "a") none).1 0 = some ("a", true) :=
  ⟨rfl,
    (c5_isStatic_amended
      ⟨[("a", ⟨"a", false, false, false, false, false, none, none, none⟩)],
        [], [], [], [], []⟩ "a"
      ⟨"a", false, false, false, false, false, none, none, none⟩
      (.keyFn "a") none rfl rfl).1,
    (c5_isStatic_amended
      ⟨[("a", ⟨"a", false, false, false, false, false, none, none, none⟩)],
        [], [], [], [], []⟩ "a"
      ⟨"a", false, false, false, false, false, none, none, none⟩
      (.keyFn "a") none rfl rfl).2⟩

/-! ### Ready-queue lemmas (C7) -/

theorem heapGet_of_heap_eq {w w' : IWorld} (h : w'.heap = w.heap) (j : Nat) :
    w'.heapGet j = w.heapGet j := by
  simp [IWorld.heapGet, h]

theorem heapGet_heapMod_self (w : IWorld) (i : Nat) (f : Instance → Instance) :
    (w.heapMod i f).heapGet i = (w.heapGet i).map f := by
  unfold IWorld.heapMod
  cases hg : w.heap.get? i with
  | none =>
      show w.heapGet i = (w.heapGet i).map f
      unfold IWorld.heapGet
      rw [hg]
      rfl
  | some inst =>
      show (w.heap.set i (f inst)).get? i = (w.heap.get? i).map f
      rw [hg, List.get?_eq_getElem?, List.getElem?_set_self',
        ← List.get?_eq_getElem?, hg]
      rfl

@[simp] theorem heapGet_wireSubscribersList (pk : String) (i : Nat)
    (l : List (String × Nat)) (w : IWorld) (j : Nat) :
    (wireSubscribersList pk i w l).heapGet j = w.heapGet j :=
  heapGet_of_heap_eq (heap_wireSubscribersList pk i l w) j

@[simp] theorem heapGet_wireSubscribeToList (pk : String) (i : Nat)
    (l : List (String × Nat)) (w : IWorld) (j : Nat) :
    (wireSubscribeToList pk i w l).heapGet j = w.heapGet j :=
  heapGet_of_heap_eq (heap_wireSubscribeToList pk i l w) j

@[simp] theorem heapGet_defInstancesPush (w : IWorld) (k : String) (i : Nat)
    (j : Nat) : (defInstancesPush w k i).heapGet j = w.heapGet j :=
  heapGet_of_heap_eq (heap_defInstancesPush w k i) j

@[simp] theorem heapGet_mk_append (ps : List (String × PDef))
    (g p : List (String × Nat)) (hp : List Instance)
    (ls : List (Nat × Listener)) (es : List IEvent) (inst : Instance) :
    (⟨ps, g, p, hp ++ [inst], ls, es⟩ : IWorld).heapGet hp.length = some inst := by
  simp [IWorld.heapGet, List.get?_concat_length]

/-- Running the ready callbacks while the instance's `ready` flag is already
set: every user callback is invoked observing `ready = true`, in list order,
and the flag stays set. -/
theorem runReadyCbs_events_ready (i : Nat) (cbs : List ReadyCb) :
    ∀ w : IWorld,
      ((w.heapGet i).map (fun inst => inst.ready)).getD false = true →
      (runReadyCbs i w cbs).events = w.events ++ cbs.filterMap (fun cb =>
          match cb with
          | .setReadyFlag => none
          | .user c => some (.readyCbInvoked c i true)) ∧
      (((runReadyCbs i w cbs).heapGet i).map
          (fun inst => inst.ready)).getD false = true := by
  induction cbs with
  | nil => intro w h; exact ⟨by simp [runReadyCbs], h⟩
  | cons hd tl ih =>
      intro w h
      cases hd with
      | setReadyFlag =>
          have hmod : (((w.heapMod i fun inst =>
              { inst with ready := true }).heapGet i).map
                (fun inst => inst.ready)).getD false = true := by
            rw [heapGet_heapMod_self]
            cases hg : w.heapGet i with
            | none => rw [hg] at h; exact absurd h (by simp)
            | some inst => simp
          obtain ⟨he, hr⟩ := ih _ hmod
          refine ⟨?_, hr⟩
          rw [runReadyCbs, he]
          have : (w.heapMod i fun inst => { inst with ready := true }).events
              = w.events := by
            unfold IWorld.heapMod
            cases w.heap.get? i <;> rfl
          rw [this, List.filterMap_cons]
      | user c =>
          have hrdy : ((w.heapGet i).map (fun inst => inst.ready)).getD false
              = true := h
          have hemit : (((w.emit (.readyCbInvoked c i
              (((w.heapGet i).map (fun inst => inst.ready)).getD false))).heapGet
                i).map (fun inst => inst.ready)).getD false = true := h
          obtain ⟨he, hr⟩ := ih _ hemit
          refine ⟨?_, hr⟩
          rw [runReadyCbs, he]
          simp only [IWorld.emit, List.filterMap_cons, hrdy]
          simp [List.append_assoc]

/-- `done` with the internal flag-setter at the head of the ready-callback
list: the flag flips first, so every caller-supplied callback observes
`ready = true`; afterwards the `clear` hooks run. -/
theorem runDone_ready_first (w : IWorld) (i : Nat) (inst : Instance)
    (rest : List ReadyCb)
    (hh : w.heapGet i = some inst)
    (hor : inst.onReady = .setReadyFlag :: rest) :
    (runDone w i).events = w.events ++
      rest.filterMap (fun cb =>
        match cb with
        | .setReadyFlag => none
        | .user c => some (.readyCbInvoked c i true)) ++
      (if ((w.getDef inst.defKey).map (fun d => d.hasClear)).getD false
       then [.clearRun inst.defKey] else []) := by
  have hmod : (((w.heapMod i fun inst =>
      { inst with ready := true }).heapGet i).map
        (fun inst => inst.ready)).getD false = true := by
    rw [heapGet_heapMod_self, hh]
    simp
  obtain ⟨he, _⟩ := runReadyCbs_events_ready i rest _ hmod
  have hmodev : (w.heapMod i fun inst => { inst with ready := true }).events
      = w.events := by
    unfold IWorld.heapMod
    cases w.heap.get? i <;> rfl
  have hprov : ∀ k, (runReadyCbs i (w.heapMod i fun inst =>
      { inst with ready := true }) rest).getDef k = w.getDef k := by
    intro k
    simp [IWorld.getDef]
  simp only [runDone, hh, hor, runReadyCbs]
  split
  · rename_i hc
    rw [hprov] at hc
    simp only [IWorld.emit, he, hmodev, hc, if_true]
  · rename_i hc
    rw [hprov] at hc
    simp only [he, hmodev]
    rw [if_neg hc]
    simp

/-- C7 (ready timing): (1) a ready callback registered after the instance
became ready is invoked synchronously within the registering
`instantiateProvider` call, observing `ready = true`; (2) when the internal
flag-setting callback sits at the front of the ready-callback list — where
`unshiftOnReady` put it at creation — firing `done` invokes every queued
user callback observing `ready = true`; (3) a creation deferred by the
replication gate leaves the instance not ready, its ready-callback list
holding the flag setter first and the caller's callback behind it. -/
theorem c7_ready_timing :
    (∀ (w : IWorld) (defKey : String) (provider : PDef) (keyArg : KeyArg)
        (cb i : Nat) (inst : Instance),
      w.getDef defKey = some provider →
      lookupInstance w provider.isGlobal (resolveKey provider keyArg) = some i →
      w.heapGet i = some inst → inst.ready = true →
      instantiateProvider w defKey keyArg (some cb)
        = (w.emit (.readyCbInvoked cb i true), some i)) ∧
    (∀ (w : IWorld) (i : Nat) (inst : Instance) (rest : List ReadyCb),
      w.heapGet i = some inst → inst.onReady = .setReadyFlag :: rest →
      (runDone w i).events = w.events ++
        rest.filterMap (fun cb =>
          match cb with
          | .setReadyFlag => none
          | .user c => some (.readyCbInvoked c i true)) ++
        (if ((w.getDef inst.defKey).map (fun d => d.hasClear)).getD false
         then [.clearRun inst.defKey] else [])) ∧
    (∀ (w : IWorld) (defKey : String) (provider : PDef) (keyArg : KeyArg)
        (cb : Nat),
      w.getDef defKey = some provider →
      lookupInstance w provider.isGlobal (resolveKey provider keyArg) = none →
      provider.replicationDefers = true →
      ((instantiateProvider w defKey keyArg (some cb)).1.heapGet
          w.heap.length).map (fun inst => (inst.ready, inst.onReady))
        = some (false, [.setReadyFlag, .user cb])) := by
  refine ⟨?_, ?_, ?_⟩
  · intro w defKey provider keyArg cb i inst hdef hhit hh hr
    unfold instantiateProvider
    rw [hdef]
    simp only []
    rw [hhit]
    simp only [hh, hr, if_true]
  · intro w i inst rest hh hor
    exact runDone_ready_first w i inst rest hh hor
  · intro w defKey provider keyArg cb hdef hmiss hdefer
    unfold instantiateProvider
    cases hthunk : provider.hasThunk <;>
      cases hwait : provider.hasWait <;>
      cases hglob : provider.isGlobal <;>
      rw [hglob] at hmiss <;>
      simp [hdef, hmiss, hthunk, hwait, hglob, hdefer, IWorld.emit,
        IWorld.setDef, pushOnReady, unshiftOnReady, heapGet_heapMod_self]

/-- Witness for `c7_ready_timing` at concrete inputs: a ready registered
instance invokes the late callback synchronously; firing `done` on an
instance whose list is `[setReadyFlag, user 5]` invokes callback 5 with
`ready = true`; a deferred creation queues `[setReadyFlag, user 9]` on a
not-ready instance. -/
theorem c7_ready_timing_witness :
    ((⟨[("a", ⟨"a", false, false, false, true, false, none, none,
          some [0]⟩)], [], [("a", 0)],
        [⟨"a", "a", true, true, [.setReadyFlag]⟩], [], []⟩ : IWorld).heapGet 0
      = some ⟨"a", "a", true, true, [.setReadyFlag]⟩) ∧
      instantiateProvider
        ⟨[("a", ⟨"a", false, false, false, true, false, none, none, some [0]⟩)],
          [], [("a", 0)], [⟨"a", "a", true, true, [.setReadyFlag]⟩], [], []⟩
        "a" .defaulted (some 7)
        = (IWorld.emit
            ⟨[("a", ⟨"a", false, false, false, true, false, none, none,
                some [0]⟩)], [], [("a", 0)],
              [⟨"a", "a", true, true, [.setReadyFlag]⟩], [], []⟩
            (.readyCbInvoked 7 0 true), some 0) ∧
      (runDone
        ⟨[("b", ⟨"b", false, false, false, true, false, none, none,
            some [0]⟩)], [], [("b", 0)],
          [⟨"b", "b", true, false, [.setReadyFlag, .user 5]⟩], [], []⟩
        0).events = [.readyCbInvoked 5 0 true] ∧
      ((instantiateProvider
          ⟨[("c", ⟨"c", false, false, false, false, true, none, none, none⟩)],
            [], [], [], [], []⟩ "c" .defaulted (some 9)).1.heapGet 0).map
        (fun inst => (inst.ready, inst.onReady))
        = some (false, [.setReadyFlag, .user 9]) := by
  refine ⟨rfl, ?_, ?_, ?_⟩
  · exact c7_ready_timing.1
      ⟨[("a", ⟨"a", false, false, false, true, false, none, none, some [0]⟩)],
        [], [("a", 0)], [⟨"a", "a", true, true, [.setReadyFlag]⟩], [], []⟩
      "a" ⟨"a", false, false, false, true, false, none, none, some [0]⟩
      .defaulted 7 0 ⟨"a", "a", true, true, [.setReadyFlag]⟩ rfl rfl rfl rfl
  · have := c7_ready_timing.2.1
      ⟨[("b", ⟨"b", false, false, false, true, false, none, none, some [0]⟩)],
        [], [("b", 0)], [⟨"b", "b", true, false, [.setReadyFlag, .user 5]⟩],
        [], []⟩
      0 ⟨"b", "b", true, false, [.setReadyFlag, .user 5]⟩ [.user 5] rfl rfl
    simpa using this
  · exact c7_ready_timing.2.2
      ⟨[("c", ⟨"c", false, false, false, false, true, none, none, none⟩)],
        [], [], [], [], []⟩ "c"
      ⟨"c", false, false, false, false, true, none, none, none⟩
      .defaulted 9 rfl rfl rfl

/-! ### Dedup lemmas (C1) -/

@[simp] theorem defSig_emit (w : IWorld) (e : IEvent) (k' : String) :
    defSig (w.emit e) k' = defSig w k' := rfl

@[simp] theorem defSig_update_heap (w : IWorld) (hp : List Instance)
    (k' : String) : defSig { w with heap := hp } k' = defSig w k' := rfl

@[simp] theorem defSig_update_glob (w : IWorld) (t : List (String × Nat))
    (k' : String) :
    defSig { w with globalProviderInstances := t } k' = defSig w k' := rfl

@[simp] theorem defSig_update_prov (w : IWorld) (t : List (String × Nat))
    (k' : String) :
    defSig { w with providerInstances := t } k' = defSig w k' := rfl

@[simp] theorem defSig_heapMod (w : IWorld) (i : Nat) (f : Instance → Instance)
    (k' : String) : defSig (w.heapMod i f) k' = defSig w k' :=
  defSig_of_providers_eq (providers_heapMod w i f) k'

@[simp] theorem defSig_pushOnReady (w : IWorld) (i : Nat) (cb : ReadyCb)
    (k' : String) : defSig (pushOnReady w i cb) k' = defSig w k' := by
  unfold pushOnReady
  exact defSig_heapMod w i _ k'

@[simp] theorem defSig_unshiftOnReady (w : IWorld) (i : Nat) (cb : ReadyCb)
    (k' : String) : defSig (unshiftOnReady w i cb) k' = defSig w k' := by
  unfold unshiftOnReady
  exact defSig_heapMod w i _ k'

@[simp] theorem defSig_runDone (w : IWorld) (i : Nat) (k' : String) :
    defSig (runDone w i) k' = defSig w k' :=
  defSig_of_providers_eq (providers_runDone w i) k'

theorem counts_mk (ps : List (String × PDef)) (g p : List (String × Nat))
    (hp : List Instance) (ls : List (Nat × Listener)) (es : List IEvent)
    (k : String) :
    creationCounts (⟨ps, g, p, hp, ls, es⟩ : IWorld) k
      = (countStoreCreated es, countWaitRun es k) := rfl

theorem defSig_mk (ps : List (String × PDef)) (g p : List (String × Nat))
    (hp : List Instance) (ls : List (Nat × Listener)) (es : List IEvent)
    (k' : String) :
    defSig (⟨ps, g, p, hp, ls, es⟩ : IWorld) k'
      = (List.lookup k' ps).map (fun d => (d.key, d.isGlobal)) := rfl

attribute [simp] defSig_wireOneSubscriber defSig_wireSubscribersList
  defSig_wireOneSubscribeTo defSig_wireSubscribeToList defSig_defInstancesPush

@[simp] theorem counts_update_heap (w : IWorld) (hp : List Instance)
    (k : String) : creationCounts { w with heap := hp } k = creationCounts w k :=
  counts_events_eq k rfl

@[simp] theorem counts_update_glob (w : IWorld) (t : List (String × Nat))
    (k : String) :
    creationCounts { w with globalProviderInstances := t } k
      = creationCounts w k :=
  counts_events_eq k rfl

@[simp] theorem counts_update_prov (w : IWorld) (t : List (String × Nat))
    (k : String) :
    creationCounts { w with providerInstances := t } k = creationCounts w k :=
  counts_events_eq k rfl

@[simp] theorem counts_setDef (w : IWorld) (dk : String) (d : PDef) (k : String) :
    creationCounts (w.setDef dk d) k = creationCounts w k :=
  counts_events_eq k rfl

theorem counts_emit_sc (w : IWorld) (i : Nat) (k : String) :
    creationCounts (w.emit (.storeCreated i)) k
      = ((creationCounts w k).1 + 1, (creationCounts w k).2) := by
  simp [creationCounts, IWorld.emit, countSC_append, countWR_append,
    countStoreCreated, countWaitRun, List.filter]

theorem counts_emit_wr (w : IWorld) (k : String) :
    creationCounts (w.emit (.waitRun k)) k
      = ((creationCounts w k).1, (creationCounts w k).2 + 1) := by
  simp [creationCounts, IWorld.emit, countSC_append, countWR_append,
    countStoreCreated, countWaitRun, List.filter]

attribute [simp] counts_fireListener counts_fireListeners
  counts_wireOneSubscriber counts_wireSubscribersList
  counts_subscribeSupInstances counts_wireOneSubscribeTo
  counts_wireSubscribeToList counts_defInstancesPush counts_heapMod
  counts_runReadyCbs counts_runDone

@[simp] theorem counts_pushOnReady (w : IWorld) (i : Nat) (cb : ReadyCb)
    (k : String) : creationCounts (pushOnReady w i cb) k = creationCounts w k := by
  unfold pushOnReady
  exact counts_heapMod w i _ k

@[simp] theorem counts_unshiftOnReady (w : IWorld) (i : Nat) (cb : ReadyCb)
    (k : String) :
    creationCounts (unshiftOnReady w i cb) k = creationCounts w k := by
  unfold unshiftOnReady
  exact counts_heapMod w i _ k

/-- The dedup (lookup-hit) path of `instantiateProvider` (lines 50–60):
returns the registered instance without touching the registry, the tables or
the definitions, constructing no store and running no `wait` hooks. -/
theorem instantiateProvider_hit
    (w : IWorld) (defKey : String) (provider : PDef) (keyArg : KeyArg)
    (cb : Option Nat) (i : Nat) (k : String)
    (hdef : w.getDef defKey = some provider)
    (hhit : lookupInstance w provider.isGlobal (resolveKey provider keyArg)
      = some i) :
    (instantiateProvider w defKey keyArg cb).2 = some i ∧
    (instantiateProvider w defKey keyArg cb).1.providers = w.providers ∧
    (instantiateProvider w defKey keyArg cb).1.globalProviderInstances
      = w.globalProviderInstances ∧
    (instantiateProvider w defKey keyArg cb).1.providerInstances
      = w.providerInstances ∧
    creationCounts (instantiateProvider w defKey keyArg cb).1 k
      = creationCounts w k := by
  unfold instantiateProvider
  rw [hdef]
  simp only []
  rw [hhit]
  simp only []
  cases cb with
  | none => exact ⟨rfl, rfl, rfl, rfl, rfl⟩
  | some c =>
      cases hh : w.heapGet i with
      | none => exact ⟨rfl, rfl, rfl, rfl, rfl⟩
      | some inst =>
          cases hr : inst.ready <;>
            refine ⟨?_, ?_, ?_, ?_, ?_⟩ <;>
            simp [hr, pushOnReady, counts_emit_other, IWorld.emit,
              creationCounts, countSC_append, countWR_append,
              countStoreCreated, countWaitRun, List.filter]

/-- The creation path of `instantiateProvider`: the new instance is the next
heap slot; it is registered in the table selected by `isGlobal` under the
resolved key; the definition keeps its identity; exactly one store is
constructed and the `wait` hooks run once iff the definition has them. -/
theorem instantiateProvider_create
    (w : IWorld) (defKey : String) (provider : PDef) (keyArg : KeyArg)
    (cb : Option Nat)
    (hdef : w.getDef defKey = some provider)
    (hmiss : lookupInstance w provider.isGlobal (resolveKey provider keyArg)
      = none) :
    (instantiateProvider w defKey keyArg cb).2 = some w.heap.length ∧
    lookupInstance (instantiateProvider w defKey keyArg cb).1 provider.isGlobal
      (resolveKey provider keyArg) = some w.heap.length ∧
    defSig (instantiateProvider w defKey keyArg cb).1 defKey
      = defSig w defKey ∧
    creationCounts (instantiateProvider w defKey keyArg cb).1 defKey
      = ((creationCounts w defKey).1 + 1,
         (creationCounts w defKey).2 + (if provider.hasWait then 1 else 0)) := by
  unfold instantiateProvider
  rw [hdef]
  simp only []
  rw [hmiss]
  simp only []
  refine ⟨?_, ?_, ?_, ?_⟩
  · cases hthunk : provider.hasThunk <;>
      cases hwait : provider.hasWait <;>
      simp [hthunk, hwait, IWorld.emit, IWorld.setDef]
  · cases hthunk : provider.hasThunk <;>
      cases hwait : provider.hasWait <;>
      cases hglob : provider.isGlobal <;>
      cases hdefer : provider.replicationDefers <;>
      cases cb <;>
      simp [hthunk, hwait, hglob, hdefer, lookupInstance, lookup_alSet_self,
        IWorld.emit, IWorld.setDef, pushOnReady, unshiftOnReady]
  · cases hthunk : provider.hasThunk <;>
      cases hwait : provider.hasWait <;>
      cases hglob : provider.isGlobal <;>
      cases hdefer : provider.replicationDefers <;>
      cases cb <;>
      simp [hthunk, hwait, hglob, hdefer, IWorld.emit, pushOnReady,
        unshiftOnReady, IWorld.setDef, defSig_mk, lookup_alSet_self] <;>
      simp [defSig, IWorld.getDef, hglob,
        show List.lookup defKey w.providers = some provider from hdef]
  · cases hthunk : provider.hasThunk <;>
      cases hwait : provider.hasWait <;>
      cases hglob : provider.isGlobal <;>
      cases hdefer : provider.replicationDefers <;>
      cases cb <;>
      simp [hthunk, hwait, hglob, hdefer, IWorld.emit, pushOnReady,
        unshiftOnReady, counts_mk] <;>
      simp [IWorld.setDef, creationCounts, countSC_append, countWR_append,
        countStoreCreated, countWaitRun, List.filter]

theorem resolveKey_congr {p1 p2 : PDef} (h : p1.key = p2.key) (ka : KeyArg) :
    resolveKey p1 ka = resolveKey p2 ka := by
  cases ka <;> simp [resolveKey, h]

/-- Iterating `instantiateProvider` from a world where the instance is
registered: every call returns that instance and the trace gains no store
construction and no `wait`-hook run. -/
theorem repeatCalls_hits
    (defKey : String) (keyArg : KeyArg) (cbs : List (Option Nat)) :
    ∀ (w : IWorld) (provider : PDef) (i : Nat) (k : String),
      w.getDef defKey = some provider →
      lookupInstance w provider.isGlobal (resolveKey provider keyArg)
        = some i →
      (repeatCalls defKey keyArg w cbs).2 = cbs.map (fun _ => some i) ∧
      creationCounts (repeatCalls defKey keyArg w cbs).1 k
        = creationCounts w k := by
  induction cbs with
  | nil => intro w provider i k hdef hhit; exact ⟨rfl, rfl⟩
  | cons cb rest ih =>
      intro w provider i k hdef hhit
      obtain ⟨h2, hp, hg, hpi, hc⟩ :=
        instantiateProvider_hit w defKey provider keyArg cb i k hdef hhit
      have hdef' : (instantiateProvider w defKey keyArg cb).1.getDef defKey
          = some provider := by
        show List.lookup defKey (instantiateProvider w defKey keyArg cb).1.providers
          = some provider
        rw [hp]
        exact hdef
      have hhit' : lookupInstance (instantiateProvider w defKey keyArg cb).1
          provider.isGlobal (resolveKey provider keyArg) = some i := by
        unfold lookupInstance at hhit ⊢
        rw [hg, hpi]
        exact hhit
      obtain ⟨ih1, ih2⟩ := ih _ provider i k hdef' hhit'
      refine ⟨?_, ?_⟩
      · simp only [repeatCalls, List.map_cons]
        rw [ih1, h2]
      · simp only [repeatCalls]
        rw [ih2, hc]

/-- C1 (instance dedup): for a (definition, key) pair with no registered
instance, the first `instantiateProvider` call creates and returns the next
heap slot, and any number of further calls for the same pair all return that
same instance; across the whole sequence exactly one store is constructed
and the definition's `wait` hooks run exactly once (iff it has any) — later
calls resolve from the global table (when `isGlobal`) or the per-context
table without creating anything. -/
theorem c1_instance_dedup
    (w : IWorld) (defKey : String) (provider : PDef) (keyArg : KeyArg)
    (cb0 : Option Nat) (cbs : List (Option Nat))
    (hdef : w.getDef defKey = some provider)
    (hmiss : lookupInstance w provider.isGlobal (resolveKey provider keyArg)
      = none) :
    (instantiateProvider w defKey keyArg cb0).2 = some w.heap.length ∧
    (repeatCalls defKey keyArg (instantiateProvider w defKey keyArg cb0).1
        cbs).2 = cbs.map (fun _ => some w.heap.length) ∧
    creationCounts
        (repeatCalls defKey keyArg (instantiateProvider w defKey keyArg cb0).1
          cbs).1 defKey
      = ((creationCounts w defKey).1 + 1,
         (creationCounts w defKey).2 + (if provider.hasWait then 1 else 0)) := by
  obtain ⟨h2, hlook, hsig, hcnt⟩ :=
    instantiateProvider_create w defKey provider keyArg cb0 hdef hmiss
  have hsigw : defSig w defKey = some (provider.key, provider.isGlobal) := by
    simp [defSig, hdef]
  rw [hsigw] at hsig
  obtain ⟨p1, hp1, hp1sig⟩ :
      ∃ p1, (instantiateProvider w defKey keyArg cb0).1.getDef defKey = some p1
        ∧ (p1.key, p1.isGlobal) = (provider.key, provider.isGlobal) := by
    unfold defSig at hsig
    cases hg : (instantiateProvider w defKey keyArg cb0).1.getDef defKey with
    | none => rw [hg] at hsig; exact absurd hsig (by simp)
    | some p1 =>
        rw [hg] at hsig
        exact ⟨p1, rfl, by simpa using hsig⟩
  have hkey : p1.key = provider.key := congrArg Prod.fst hp1sig
  have hglob : p1.isGlobal = provider.isGlobal := congrArg Prod.snd hp1sig
  have hhit1 : lookupInstance (instantiateProvider w defKey keyArg cb0).1
      p1.isGlobal (resolveKey p1 keyArg) = some w.heap.length := by
    rw [hglob, resolveKey_congr hkey]
    exact hlook
  obtain ⟨hr1, hr2⟩ := repeatCalls_hits defKey keyArg cbs _ p1 w.heap.length
    defKey hp1 hhit1
  exact ⟨h2, hr1, by rw [hr2, hcnt]⟩

/-- Witness for `c1_instance_dedup`: three calls (one creating, two more with
and without ready callbacks) return instance `0` each time; the trace holds
exactly one store construction and one `wait` run. -/
theorem c1_instance_dedup_witness :
    ((⟨[("a", ⟨"a", false, true, false, false, false, none, none, none⟩)],
        [], [], [], [], []⟩ : IWorld).getDef "a"
      = some ⟨"a", false, true, false, false, false, none, none, none⟩) ∧
      (instantiateProvider
        ⟨[("a", ⟨"a", false, true, false, false, false, none, none, none⟩)],
          [], [], [], [], []⟩ "a" .defaulted none).2 = some 0 ∧
      (repeatCalls "a" .defaulted
        (instantiateProvider
          ⟨[("a", ⟨"a", false, true, false, false, false, none, none, none⟩)],
            [], [], [], [], []⟩ "a" .defaulted none).1
        [none, some 3]).2 = [some 0, some 0] ∧
      creationCounts
        (repeatCalls "a" .defaulted
          (instantiateProvider
            ⟨[("a", ⟨"a", false, true, false, false, false, none, none, none⟩)],
              [], [], [], [], []⟩ "a" .defaulted none).1
          [none, some 3]).1 "a" = (1, 1) := by
  have h := c1_instance_dedup
    ⟨[("a", ⟨"a", false, true, false, false, false, none, none, none⟩)],
      [], [], [], [], []⟩ "a"
    ⟨"a", false, true, false, false, false, none, none, none⟩
    .defaulted none [none, some 3] rfl rfl
  exact ⟨rfl, h.1, h.2.1, by rw [h.2.2]; rfl⟩

/-- C2 (query dedup): two consumers issuing the structurally identical
`{ query, options }` against one provider: the first cold call invokes
`handleQuery` once and registers the pending list; the second call, while the
pending list exists, appends its handler instead of re-invoking the handler
(the invocation count for the `resultKey` stays 1); when the single
execution completes, both joined handlers receive the identical resolved
value, both completion callbacks fire exactly once, and the pending marker is
gone. -/
theorem c2_query_dedup (q o v : JSVal) (P : QProvider)
    (info : QueryHandlerInfo)
    (ho : o.truthy = true) (hP : getQueryHandler P = some info) :
    (c2Step1 q o P).map (fun r =>
        (r.2, countInvoked r.1.events (c2Key q o), r.1.activeQueries))
      = .ok (true, 1, [(c2Key q o, [(1, "p")])]) ∧
    (c2Step2 q o P).map (fun r =>
        (r.2, countInvoked r.1.events (c2Key q o), r.1.activeQueries))
      = .ok (true, 1, [(c2Key q o, [(1, "p"), (2, "p")])]) ∧
    (c2Step3 q o v P).map (fun w =>
        ((List.lookup 1 w.consumers).map (fun c => c.results),
         (List.lookup 2 w.consumers).map (fun c => c.results),
         countInvoked w.events (c2Key q o),
         countCallback w.events 1, countCallback w.events 2,
         w.activeQueries))
      = .ok (some [("p", v)], some [("p", v)], 1, 1, 1, []) := by
  cases hw : P.hasWait <;> cases hc : P.hasClear <;>
    refine ⟨?_, ?_, ?_⟩ <;>
    simp [c2Step1, c2Step2, c2Step3, c2World, c2Inp, c2Key, handleQueries,
      processQueries, processEntry, resolveOptions, resultKeyOf, emitQ,
      QueryWorld.setConsumer, deliverResult, drainHandlers, runResultHandler,
      clearSem, alSet, alRemove, List.lookup, ho, hP, hw, hc, countInvoked,
      countCallback, List.filter, freshConsumer, Except.bind, Except.map,
      show JSVal.truthy .null = false from rfl]

/-- Witness for `c2_query_dedup`: a concrete provider with one replicator
exposing handler 7, query `{x:1}`, options `{}`, resolved value `5`. -/
theorem c2_query_dedup_witness :
    JSVal.truthy (.obj []) = true ∧
      getQueryHandler ⟨"p", ["x"], false, false, some [⟨some [⟨some 7⟩], none⟩]⟩
        = some ⟨7, ["x"]⟩ ∧
      (c2Step3 (.obj [("x", .num 1)]) (.obj []) (.num 5)
          ⟨"p", ["x"], false, false, some [⟨some [⟨some 7⟩], none⟩]⟩).map
        (fun w =>
          ((List.lookup 1 w.consumers).map (fun c => c.results),
           (List.lookup 2 w.consumers).map (fun c => c.results),
           countInvoked w.events (c2Key (.obj [("x", .num 1)]) (.obj [])),
           countCallback w.events 1, countCallback w.events 2,
           w.activeQueries))
        = .ok (some [("p", .num 5)], some [("p", .num 5)], 1, 1, 1, []) :=
  ⟨rfl, rfl,
    (c2_query_dedup (.obj [("x", .num 1)]) (.obj []) (.num 5)
      ⟨"p", ["x"], false, false, some [⟨some [⟨some 7⟩], none⟩]⟩
      ⟨7, ["x"]⟩ rfl rfl).2.2⟩

/-! ### Join-counter lemmas (C6) -/

theorem lookup_map_if {β : Type} (c : Nat) (f : β → β) (l : List (Nat × β)) :
    List.lookup c (l.map fun p => if p.1 = c then (p.1, f p.2) else p)
      = (List.lookup c l).map f := by
  induction l with
  | nil => rfl
  | cons hd tl ih =>
      cases hd with
      | mk a b =>
          simp only [List.map_cons]
          by_cases h : a = c
          · subst h
            rw [if_pos rfl]
            simp [List.lookup, ih]
          · rw [if_neg (by simpa using h)]
            have hb : (c == a) = false :=
              beq_eq_false_iff_ne.mpr fun hh => h hh.symm
            simp [List.lookup, hb, ih]

theorem lookup_setConsumer_self (w : QueryWorld) (c : Nat)
    (f : Consumer → Consumer) :
    List.lookup c (w.setConsumer c f).consumers
      = (List.lookup c w.consumers).map f :=
  lookup_map_if c f w.consumers

/-- Processing a run of entries that are all cache hits, with the join
counter seeded at the number of entries: every entry decrements once, the
counter cannot reach zero before the last entry, and the completion callback
fires exactly once, at the last entry. -/
theorem processQueries_all_cached (inp : HQInput) :
    ∀ (entries : List (String × JSVal)) (w : QueryWorld) (cons : Consumer),
      List.lookup inp.consumer w.consumers = some cons →
      cons.hasQuery = false → cons.hasCallback = true →
      cons.hasUpdate = false → cons.doUpdate = false →
      cons.semaphore = entries.length →
      entries ≠ [] →
      (∀ e ∈ entries,
        (List.lookup (resultKeyOf inp e) w.queryResults).isSome = true) →
      ∃ w', processQueries inp w entries = .ok w' ∧
        w'.events = w.events ++ [.consumerCallback inp.consumer] ∧
        w'.queryResults = w.queryResults := by
  intro entries
  induction entries with
  | nil => intro w cons _ _ _ _ _ _ hne _; exact absurd rfl hne
  | cons e rest ih =>
      intro w cons hcons hq hcb hu hdu hsem _ hcached
      obtain ⟨qv, hqv⟩ := Option.isSome_iff_exists.mp
        (hcached e (List.mem_cons_self e rest))
      have hstep : processEntry w inp e
          = clearSem (w.setConsumer inp.consumer fun k =>
              { k with results := alSet k.results e.1 qv }) inp.consumer := by
        simp only [processEntry, hqv]
      have hlook1 : List.lookup inp.consumer
          (w.setConsumer inp.consumer fun k =>
            { k with results := alSet k.results e.1 qv }).consumers
          = some { cons with results := alSet cons.results e.1 qv } := by
        rw [lookup_setConsumer_self, hcons]
        rfl
      cases rest with
      | nil =>
          have h0 : cons.semaphore - 1 = 0 := by
            rw [hsem]
            simp
          refine ⟨emitQ ((w.setConsumer inp.consumer fun k =>
              { k with results := alSet k.results e.1 qv }).setConsumer
                inp.consumer fun k =>
                  { k with semaphore := cons.semaphore - 1, result := cons.result })
              (.consumerCallback inp.consumer), ?_, ?_, ?_⟩
          · simp only [processQueries, hstep, clearSem, hlook1, h0]
            simp [hq, hcb, hu, hdu]
          · simp [emitQ, QueryWorld.setConsumer]
          · simp [emitQ, QueryWorld.setConsumer]
      | cons e2 rest2 =>
          have hne0 : (cons.semaphore - 1 = 0) = False := by
            rw [hsem]
            simp only [List.length_cons]
            exact eq_false (by omega)
          have hstep2 : processEntry w inp e
              = .ok ((w.setConsumer inp.consumer fun k =>
                  { k with results := alSet k.results e.1 qv }).setConsumer
                    inp.consumer fun k =>
                      { k with semaphore := cons.semaphore - 1 }) := by
            rw [hstep]
            unfold clearSem
            rw [hlook1]
            simp only [hne0, if_false, reduceIte]
          set w2 := ((w.setConsumer inp.consumer fun k =>
            { k with results := alSet k.results e.1 qv }).setConsumer
              inp.consumer fun k =>
                { k with semaphore := cons.semaphore - 1 }) with hw2
          have hlook2 : List.lookup inp.consumer w2.consumers
              = some { cons with
                  results := alSet cons.results e.1 qv
                  semaphore := cons.semaphore - 1 } := by
            rw [hw2, lookup_setConsumer_self, hlook1]
            rfl
          have hqr2 : w2.queryResults = w.queryResults := rfl
          have hev2 : w2.events = w.events := rfl
          obtain ⟨w', hrun, hevs, hqr⟩ := ih w2
            { cons with
                results := alSet cons.results e.1 qv
                semaphore := cons.semaphore - 1 }
            hlook2 hq hcb hu hdu
            (by simp [hsem])
            (by simp)
            (by intro e' he'
                rw [hqr2]
                exact hcached e' (List.mem_cons_of_mem e he'))
          refine ⟨w', ?_, ?_, ?_⟩
          · simp only [processQueries, hstep2]
            exact hrun
          · rw [hevs, hev2]
          · rw [hqr, hqr2]

/-- The all-synchronous loop of `getResultInstances`: with the counter seeded
at the entry count, synchronous completions cannot fire the callback before
the last entry, and it fires exactly once. -/
theorem griLoop_cons_some (g : GRun) (i inst : Nat)
    (rest : List (Option Nat)) :
    griLoop g i (some inst :: rest)
      = griLoop (griClear { g with resultInstances :=
          (g.resultInstances ++ [none]).set i (some inst) }) (i + 1) rest := rfl

theorem griLoop_all_sync (insts : List Nat) :
    ∀ (g : GRun) (i : Nat),
      g.semaphore = insts.length → g.callbackCount = 0 → insts ≠ [] →
      (griLoop g i (insts.map some)).callbackCount = 1 ∧
      (griLoop g i (insts.map some)).semaphore = 0 := by
  induction insts with
  | nil => intro g i _ _ hne; exact absurd rfl hne
  | cons inst rest ih =>
      intro g i hsem hcb _
      cases rest with
      | nil =>
          simp only [List.map_cons, List.map_nil, griLoop, griClear]
          constructor <;>
            simp [hsem, hcb]
      | cons i2 r2 =>
          have hne0 : (g.semaphore - 1 = 0) = False := by
            rw [hsem]
            simp only [List.length_cons]
            exact eq_false (by omega)
          rw [List.map_cons, griLoop_cons_some]
          refine ih _ (i + 1) ?_ ?_ ?_
          · simp only [griClear, hsem, List.length_cons]
            push_cast
            omega
          · simp only [griClear]
            simp [hne0, hcb]
          · exact List.cons_ne_nil i2 r2

theorem griLoop_initialSemaphore (l : List (Option Nat)) :
    ∀ (g : GRun) (i : Nat),
      (griLoop g i l).initialSemaphore = g.initialSemaphore := by
  induction l with
  | nil => intro g i; rfl
  | cons hd tl ih =>
      intro g i
      cases hd <;> simp [griLoop, griClear, ih]

theorem emitQ_consumers (w : QueryWorld) (e : QEvent) :
    (emitQ w e).consumers = w.consumers := rfl

/-- An all-cache-hit `handleQueries` call: the join counter is seeded with
the number of resolved sub-queries (`semaphoreInit`), every synchronous
cache-hit completion decrements it, and the completion callback fires exactly
once, after the last entry. -/
theorem handleQueries_all_cached (w : QueryWorld) (inp : HQInput)
    (qs : List (String × JSVal)) (cons : Consumer)
    (hq : inp.queries = some qs) (hne : qs ≠ [])
    (hqt : inp.query.truthy = false) (hcb : inp.hasCallback = true)
    (hu : inp.hasUpdate = false)
    (hcons : List.lookup inp.consumer w.consumers = some cons)
    (hcached : ∀ e ∈ qs,
      (List.lookup (resultKeyOf inp e) w.queryResults).isSome = true) :
    ∃ w', handleQueries w inp = .ok (w', true) ∧
      w'.events = w.events ++
        [.semaphoreInit inp.consumer qs.length,
         .consumerCallback inp.consumer] := by
  obtain ⟨w', hrun, hevs, _⟩ := processQueries_all_cached inp qs
    (emitQ (w.setConsumer inp.consumer fun k =>
      { k with
          hasQuery := inp.query.truthy
          hasUpdate := inp.hasUpdate
          hasCallback := inp.hasCallback
          previousResults := k.results
          semaphore := qs.length
          result := if inp.query.truthy = true then none else k.result
          results := []
          doUpdate := false })
      (.semaphoreInit inp.consumer qs.length))
    { cons with
        hasQuery := inp.query.truthy
        hasUpdate := inp.hasUpdate
        hasCallback := inp.hasCallback
        previousResults := cons.results
        semaphore := qs.length
        result := if inp.query.truthy = true then none else cons.result
        results := []
        doUpdate := false }
    (by rw [emitQ_consumers, lookup_setConsumer_self, hcons]
        rfl)
    hqt hcb hu rfl rfl hne
    (fun e he => hcached e he)
  refine ⟨w', ?_, ?_⟩
  · unfold handleQueries
    rw [hq]
    simp only []
    rw [hrun]
  · rw [hevs]
    simp [emitQ, QueryWorld.setConsumer]

/-- C6 counterexample: the claim says the join counter in `handleQueries`
starts at 1 and is force-decremented when no providers are relevant.  A
two-entry all-cached run records `semaphoreInit 2` — the counter starts at
the number of resolved sub-queries, not at 1 — and the no-relevant-providers
case (`queries` null) invokes the callback directly without any counter
operation (no `semaphoreInit` event at all). -/
theorem c6_join_counter_counterexample :
    (handleQueries
        ⟨[], [],
          [(jsonStr (.obj [("query", .obj [("x", .num 1)]),
              ("options", .obj [])]), .num 1),
           (jsonStr (.obj [("query", .obj [("y", .num 2)]),
              ("options", .obj [])]), .num 2)],
          [(1, freshConsumer)], []⟩
        ⟨1, .null,
          some [("pA", .obj [("x", .num 1)]), ("pB", .obj [("y", .num 2)])],
          .null, [], true, false⟩).map (fun r => r.1.events)
      = .ok [.semaphoreInit 1 2, .consumerCallback 1] ∧
    (QEvent.semaphoreInit 1 1 ∉
      [QEvent.semaphoreInit 1 2, QEvent.consumerCallback 1]) ∧
    handleQueries (⟨[], [], [], [(1, freshConsumer)], []⟩ : QueryWorld)
        ⟨1, .null, none, .null, [], true, false⟩
      = .ok (⟨[], [], [], [(1, freshConsumer)],
          [.consumerCallback 1]⟩, false) :=
  ⟨rfl, by decide, rfl⟩

/-- C6 amended: in `handleQueries` the join counter starts at the number of
resolved sub-queries, and when no providers are relevant the callback is
invoked directly with no counter at all; in the instance-gathering helper
`getResultInstances` the counter starts at the entry count and, when there
are no entries, is seeded to 1 and force-decremented immediately; in both,
synchronous (zero-delay) completions cannot drive the counter to zero before
all entries are enumerated, and the completion callback fires exactly
once. -/
theorem c6_join_counter_amended :
    (∀ (w : QueryWorld) (inp : HQInput) (qs : List (String × JSVal))
        (cons : Consumer),
      inp.queries = some qs → qs ≠ [] →
      inp.query.truthy = false → inp.hasCallback = true →
      inp.hasUpdate = false →
      List.lookup inp.consumer w.consumers = some cons →
      (∀ e ∈ qs,
        (List.lookup (resultKeyOf inp e) w.queryResults).isSome = true) →
      ∃ w', handleQueries w inp = .ok (w', true) ∧
        w'.events = w.events ++
          [.semaphoreInit inp.consumer qs.length,
           .consumerCallback inp.consumer]) ∧
    (∀ (w : QueryWorld) (inp : HQInput),
      inp.queries = none → inp.hasCallback = true →
      handleQueries w inp
        = .ok ({ w with events := w.events ++
            [.consumerCallback inp.consumer] }, false)) ∧
    getResultInstances none = ⟨[], 0, true, 0, 1⟩ ∧
    getResultInstances (some []) = ⟨[], 0, true, 0, 1⟩ ∧
    (∀ insts : List Nat, insts ≠ [] →
      (getResultInstances (some (insts.map some))).initialSemaphore
          = insts.length ∧
      (getResultInstances (some (insts.map some))).callbackCount = 1) := by
  refine ⟨handleQueries_all_cached, ?_, rfl, rfl, ?_⟩
  · intro w inp hq hcb
    unfold handleQueries
    rw [hq]
    simp [hcb, emitQ]
  · intro insts hne
    have hlen : ¬ (((insts.map some).length : Int) = 0) := by
      simp only [List.length_map, Int.natCast_eq_zero, List.length_eq_zero]
      exact hne
    constructor
    · simp only [getResultInstances, Option.getD_some]
      rw [if_neg hlen, griLoop_initialSemaphore]
      simp
    · simp only [getResultInstances, Option.getD_some]
      rw [if_neg hlen]
      exact (griLoop_all_sync insts _ 0 (by simp) rfl hne).1

/-- Witness for `c6_join_counter_amended` at concrete inputs: a two-entry
all-cached run fires the callback once after seeding the counter with 2; a
null `queries` invokes the callback directly; a three-entry all-synchronous
`getResultInstances` run seeds 3 and fires once. -/
theorem c6_join_counter_amended_witness :
    (∃ w', handleQueries
        ⟨[], [],
          [(jsonStr (.obj [("query", .obj [("x", .num 1)]),
              ("options", .obj [])]), .num 1),
           (jsonStr (.obj [("query", .obj [("y", .num 2)]),
              ("options", .obj [])]), .num 2)],
          [(1, freshConsumer)], []⟩
        ⟨1, .null,
          some [("pA", .obj [("x", .num 1)]), ("pB", .obj [("y", .num 2)])],
          .null, [], true, false⟩ = .ok (w', true) ∧
      w'.events = [.semaphoreInit 1 2, .consumerCallback 1]) ∧
    handleQueries (⟨[], [], [], [], []⟩ : QueryWorld)
        ⟨4, .null, none, .null, [], true, false⟩
      = .ok (⟨[], [], [], [], [.consumerCallback 4]⟩, false) ∧
    (getResultInstances (some ([10, 11, 12].map some))).initialSemaphore = 3 ∧
    (getResultInstances (some ([10, 11, 12].map some))).callbackCount = 1 := by
  refine ⟨?_, ?_, ?_, ?_⟩
  · obtain ⟨w', h1, h2⟩ := c6_join_counter_amended.1
      ⟨[], [],
        [(jsonStr (.obj [("query", .obj [("x", .num 1)]),
            ("options", .obj [])]), .num 1),
         (jsonStr (.obj [("query", .obj [("y", .num 2)]),
            ("options", .obj [])]), .num 2)],
        [(1, freshConsumer)], []⟩
      ⟨1, .null,
        some [("pA", .obj [("x", .num 1)]), ("pB", .obj [("y", .num 2)])],
        .null, [], true, false⟩
      [("pA", .obj [("x", .num 1)]), ("pB", .obj [("y", .num 2)])]
      freshConsumer rfl (List.cons_ne_nil _ _) rfl rfl rfl rfl
      (by intro e he
          simp only [List.mem_cons, List.not_mem_nil, or_false] at he
          rcases he with rfl | rfl <;> rfl)
    exact ⟨w', h1, by rw [h2]; rfl⟩
  · exact c6_join_counter_amended.2.1 ⟨[], [], [], [], []⟩
      ⟨4, .null, none, .null, [], true, false⟩ rfl rfl
  · exact (c6_join_counter_amended.2.2.2.2 [10, 11, 12] (by decide)).1
  · exact (c6_join_counter_amended.2.2.2.2 [10, 11, 12] (by decide)).2

/-! ### Listener-table projections (C8) -/

@[simp] theorem listeners_emit (w : IWorld) (e : IEvent) :
    (w.emit e).listeners = w.listeners := rfl

@[simp] theorem listeners_setDef (w : IWorld) (k : String) (d : PDef) :
    (w.setDef k d).listeners = w.listeners := rfl

@[simp] theorem listeners_heapMod (w : IWorld) (i : Nat)
    (f : Instance → Instance) : (w.heapMod i f).listeners = w.listeners := by
  unfold IWorld.heapMod
  cases w.heap.get? i <;> rfl

@[simp] theorem listeners_fireListener (w : IWorld) (l : Listener) :
    (fireListener w l).listeners = w.listeners := rfl

@[simp] theorem listeners_defInstancesPush (w : IWorld) (k : String) (i : Nat) :
    (defInstancesPush w k i).listeners = w.listeners := by
  cases hd : w.getDef k <;> simp [defInstancesPush, hd]

@[simp] theorem listeners_runReadyCbs (i : Nat) (cbs : List ReadyCb) :
    ∀ w : IWorld, (runReadyCbs i w cbs).listeners = w.listeners := by
  induction cbs with
  | nil => intro w; rfl
  | cons hd tl ih =>
      intro w
      cases hd <;> simp [runReadyCbs, ih, IWorld.emit]

@[simp] theorem listeners_runDone (w : IWorld) (i : Nat) :
    (runDone w i).listeners = w.listeners := by
  cases hg : w.heapGet i with
  | none => simp [runDone, hg]
  | some inst =>
      simp only [runDone, hg]
      split <;> simp [IWorld.emit]

@[simp] theorem listeners_pushOnReady (w : IWorld) (i : Nat) (cb : ReadyCb) :
    (pushOnReady w i cb).listeners = w.listeners := by
  unfold pushOnReady
  exact listeners_heapMod w i _

@[simp] theorem listeners_unshiftOnReady (w : IWorld) (i : Nat) (cb : ReadyCb) :
    (unshiftOnReady w i cb).listeners = w.listeners := by
  unfold unshiftOnReady
  exact listeners_heapMod w i _

@[simp] theorem heapLen_heapMod (w : IWorld) (i : Nat)
    (f : Instance → Instance) :
    (w.heapMod i f).heap.length = w.heap.length := by
  unfold IWorld.heapMod
  cases w.heap.get? i <;> simp

@[simp] theorem heapLen_runReadyCbs (i : Nat) (cbs : List ReadyCb) :
    ∀ w : IWorld, (runReadyCbs i w cbs).heap.length = w.heap.length := by
  induction cbs with
  | nil => intro w; rfl
  | cons hd tl ih =>
      intro w
      cases hd <;> simp [runReadyCbs, ih, IWorld.emit]

@[simp] theorem heapLen_runDone (w : IWorld) (i : Nat) :
    (runDone w i).heap.length = w.heap.length := by
  cases hg : w.heapGet i with
  | none => simp [runDone, hg]
  | some inst =>
      simp only [runDone, hg]
      split <;> simp [IWorld.emit]

@[simp] theorem providers_pushOnReady (w : IWorld) (i : Nat) (cb : ReadyCb) :
    (pushOnReady w i cb).providers = w.providers := by
  unfold pushOnReady
  exact providers_heapMod w i _

@[simp] theorem providers_unshiftOnReady (w : IWorld) (i : Nat) (cb : ReadyCb) :
    (unshiftOnReady w i cb).providers = w.providers := by
  unfold unshiftOnReady
  exact providers_heapMod w i _

/-- The S-side `subscribers` entry against a `B` definition that already
carries the mirrored `subscribeTo` entry: the presence check leaves the edge
map as is (the `setDef` rewrites the same value), one listener is attached to
the new instance's store, and the eager replay touches only the trace. -/
theorem wireOneSubscriber_c8 (w : IWorld) (i h : Nat) (bd : PDef)
    (hbd : w.getDef "B" = some bd)
    (hsub : bd.subscribeTo = some [("S", h)]) :
    (wireOneSubscriber w "S" i "B" h).providers
        = alSet w.providers "B" bd ∧
    (wireOneSubscriber w "S" i "B" h).listeners
        = w.listeners ++ [(i, ⟨h, i, "B"⟩)] ∧
    (wireOneSubscriber w "S" i "B" h).heap = w.heap := by
  have hb : bd = { bd with subscribeTo := some [("S", h)] } := by
    cases bd
    simp_all
  simp only [wireOneSubscriber, hbd, hsub]
  refine ⟨?_, ?_, ?_⟩ <;>
    simp [fireListener, IWorld.setDef, List.lookup] <;>
    rw [← hb]

/-- The B-side `subscribeTo` entry against an `S` definition that already
carries the mirrored `subscribers` entry: the presence check skips
registration entirely; only the eager replay (trace) happens. -/
theorem wireOneSubscribeTo_c8 (w : IWorld) (i h : Nat) (sd : PDef)
    (hsd : w.getDef "S" = some sd)
    (hsub : sd.subscribers = some [("B", h)]) :
    (wireOneSubscribeTo w "B" i "S" h).providers = w.providers ∧
    (wireOneSubscribeTo w "B" i "S" h).listeners = w.listeners ∧
    (wireOneSubscribeTo w "B" i "S" h).heap = w.heap := by
  simp only [wireOneSubscribeTo, hsd, hsub]
  simp [List.lookup]

/-- An `instantiateProvider` call for an unregistered definition leaves the
world untouched (JS would raise on the destructuring; no state precedes it). -/
theorem instantiateProvider_nodef (w : IWorld) (dk : String) (ka : KeyArg)
    (cb : Option Nat) (hdef : w.getDef dk = none) :
    (instantiateProvider w dk ka cb).1 = w := by
  unfold instantiateProvider
  rw [hdef]

/-- Frame of the dedup (lookup-hit) path: the registry, the listener table and
the heap size are untouched (only a ready callback may be queued or invoked). -/
theorem instantiateProvider_hit_frame
    (w : IWorld) (defKey : String) (provider : PDef) (keyArg : KeyArg)
    (cb : Option Nat) (i : Nat)
    (hdef : w.getDef defKey = some provider)
    (hhit : lookupInstance w provider.isGlobal (resolveKey provider keyArg)
      = some i) :
    (instantiateProvider w defKey keyArg cb).1.providers = w.providers ∧
    (instantiateProvider w defKey keyArg cb).1.listeners = w.listeners ∧
    (instantiateProvider w defKey keyArg cb).1.heap.length = w.heap.length := by
  unfold instantiateProvider
  rw [hdef]
  simp only []
  rw [hhit]
  simp only []
  cases cb with
  | none => exact ⟨rfl, rfl, rfl⟩
  | some c =>
      cases hh : w.heapGet i with
      | none => exact ⟨rfl, rfl, rfl⟩
      | some inst =>
          cases hr : inst.ready <;>
            refine ⟨?_, ?_, ?_⟩ <;>
            simp [hr, pushOnReady, IWorld.emit]

/-- Creating an `S` instance in the mirrored-edge world: the new instance is
the next heap slot and is appended to `S.instances`; the `subscribers` block
attaches exactly one listener for it (the mirror write onto `B.subscribeTo`
hits the presence check and rewrites the same entry); `B`'s definition is
unchanged. -/
theorem c8_create_S (w : IWorld) (sd bd : PDef) (h : Nat) (ka : KeyArg)
    (cb : Option Nat)
    (hprov : w.providers = [("S", sd), ("B", bd)])
    (hsk : sd.key = "S") (hsg : sd.isGlobal = false)
    (hss : sd.subscribers = some [("B", h)]) (hst : sd.subscribeTo = none)
    (hbt : bd.subscribeTo = some [("S", h)])
    (hmiss : lookupInstance w sd.isGlobal (resolveKey sd ka) = none) :
    (instantiateProvider w "S" ka cb).2 = some w.heap.length ∧
    (instantiateProvider w "S" ka cb).1.providers
      = [("S", { sd with
                   hasThunk := true
                   instances := some (sd.instances.getD [] ++ [w.heap.length]) }),
         ("B", bd)] ∧
    (instantiateProvider w "S" ka cb).1.listeners
      = w.listeners ++ [(w.heap.length, ⟨h, w.heap.length, "B"⟩)] ∧
    (instantiateProvider w "S" ka cb).1.heap.length = w.heap.length + 1 := by
  have hdefS : w.getDef "S" = some sd := by
    simp [IWorld.getDef, hprov, List.lookup]
  unfold instantiateProvider
  rw [hdefS]
  simp only []
  rw [hmiss]
  simp only []
  obtain ⟨kS, gS, wS, cS, tS, rS, sS, uS, iS⟩ := sd
  obtain ⟨kB, gB, wB, cB, tB, rB, sB, uB, iB⟩ := bd
  simp only [] at hsk hsg hss hst hbt
  subst hsk hsg hss hst hbt
  cases tS <;> cases wS <;> cases rS <;> cases cb <;>
    refine ⟨?_, ?_, ?_, ?_⟩ <;>
    simp [hprov, IWorld.setDef, IWorld.getDef, IWorld.emit, alSet, List.lookup,
      defInstancesPush, wireSubscribersList, wireOneSubscriber,
      wireSubscribeToList, fireListener, pushOnReady, unshiftOnReady]

/-- Creating a `B` instance in the mirrored-edge world: the new instance is
the next heap slot and is appended to `B.instances`; its `subscribeTo` block
hits the presence check on `S.subscribers` so no listener is attached and
`S`'s definition is unchanged — only the eager replay (trace) happens. -/
theorem c8_create_B (w : IWorld) (sd bd : PDef) (h : Nat) (ka : KeyArg)
    (cb : Option Nat)
    (hprov : w.providers = [("S", sd), ("B", bd)])
    (hss : sd.subscribers = some [("B", h)])
    (hbk : bd.key = "B") (hbg : bd.isGlobal = false)
    (hbs : bd.subscribers = none) (hbt : bd.subscribeTo = some [("S", h)])
    (hmiss : lookupInstance w bd.isGlobal (resolveKey bd ka) = none) :
    (instantiateProvider w "B" ka cb).2 = some w.heap.length ∧
    (instantiateProvider w "B" ka cb).1.providers
      = [("S", sd),
         ("B", { bd with
                   hasThunk := true
                   instances := some (bd.instances.getD [] ++ [w.heap.length]) })] ∧
    (instantiateProvider w "B" ka cb).1.listeners = w.listeners ∧
    (instantiateProvider w "B" ka cb).1.heap.length = w.heap.length + 1 := by
  have hdefB : w.getDef "B" = some bd := by
    simp [IWorld.getDef, hprov, List.lookup]
  unfold instantiateProvider
  rw [hdefB]
  simp only []
  rw [hmiss]
  simp only []
  obtain ⟨kS, gS, wS, cS, tS, rS, sS, uS, iS⟩ := sd
  obtain ⟨kB, gB, wB, cB, tB, rB, sB, uB, iB⟩ := bd
  simp only [] at hss hbk hbg hbs hbt
  subst hss hbk hbg hbs hbt
  cases tB <;> cases wB <;> cases rB <;> cases cb <;>
    refine ⟨?_, ?_, ?_, ?_⟩ <;>
    simp [hprov, IWorld.setDef, IWorld.getDef, IWorld.emit, alSet, List.lookup,
      defInstancesPush, wireSubscribersList, wireOneSubscriber,
      wireSubscribeToList, wireOneSubscribeTo, fireListener, pushOnReady,
      unshiftOnReady]

theorem c8Inv_init (h : Nat) : c8Inv h (c8World h) := by
  refine ⟨c8SDef h, c8BDef h, rfl, rfl, rfl, rfl, rfl, rfl, rfl, rfl, rfl, rfl,
    List.nodup_nil, List.nodup_nil, ?_, ?_⟩ <;>
    exact fun x hx => absurd hx (List.not_mem_nil x)

theorem c8Inv_step (h : Nat) (w : IWorld) (dk : String) (ka : KeyArg)
    (cb : Option Nat) (hw : c8Inv h w) :
    c8Inv h (instantiateProvider w dk ka cb).1 := by
  obtain ⟨sd, bd, hprov, hsk, hsg, hss, hst, hbk, hbg, hbs, hbt, hlis, hnds,
    hndb, hbds, hbdb⟩ := hw
  by_cases hS : dk = "S"
  · subst hS
    have hdefS : w.getDef "S" = some sd := by
      simp [IWorld.getDef, hprov, List.lookup]
    cases hl : lookupInstance w sd.isGlobal (resolveKey sd ka) with
    | some i =>
        obtain ⟨hp, hlst, hhl⟩ :=
          instantiateProvider_hit_frame w "S" sd ka cb i hdefS hl
        exact ⟨sd, bd, by rw [hp, hprov], hsk, hsg, hss, hst, hbk, hbg, hbs,
          hbt, by rw [hlst, hlis], hnds, hndb,
          fun x hx => by rw [hhl]; exact hbds x hx,
          fun x hx => by rw [hhl]; exact hbdb x hx⟩
    | none =>
        obtain ⟨_, hp, hlst, hhl⟩ :=
          c8_create_S w sd bd h ka cb hprov hsk hsg hss hst hbt hl
        have hfresh : w.heap.length ∉ sd.instances.getD [] :=
          fun hmem => absurd (hbds _ hmem) (lt_irrefl _)
        refine ⟨_, bd, hp, ?_, ?_, ?_, ?_, hbk, hbg, hbs, hbt, ?_, ?_, hndb,
          ?_, ?_⟩
        · simpa using hsk
        · simpa using hsg
        · simpa using hss
        · simpa using hst
        · rw [hlst, hlis]
          simp
        · simp only []
          exact List.Nodup.append hnds (List.nodup_singleton _)
            (fun a ha hb => by
              rw [List.mem_singleton] at hb
              exact hfresh (hb ▸ ha))
        · intro x hx
          rw [hhl]
          simp only [] at hx
          rcases List.mem_append.mp hx with hx1 | hx2
          · exact Nat.lt_succ_of_lt (hbds x hx1)
          · rw [List.mem_singleton] at hx2
            subst hx2
            exact Nat.lt_succ_self _
        · intro x hx
          rw [hhl]
          exact Nat.lt_succ_of_lt (hbdb x hx)
  · by_cases hB : dk = "B"
    · subst hB
      have hdefB : w.getDef "B" = some bd := by
        simp [IWorld.getDef, hprov, List.lookup]
      cases hl : lookupInstance w bd.isGlobal (resolveKey bd ka) with
      | some i =>
          obtain ⟨hp, hlst, hhl⟩ :=
            instantiateProvider_hit_frame w "B" bd ka cb i hdefB hl
          exact ⟨sd, bd, by rw [hp, hprov], hsk, hsg, hss, hst, hbk, hbg, hbs,
            hbt, by rw [hlst, hlis], hnds, hndb,
            fun x hx => by rw [hhl]; exact hbds x hx,
            fun x hx => by rw [hhl]; exact hbdb x hx⟩
      | none =>
          obtain ⟨_, hp, hlst, hhl⟩ :=
            c8_create_B w sd bd h ka cb hprov hss hbk hbg hbs hbt hl
          have hfresh : w.heap.length ∉ bd.instances.getD [] :=
            fun hmem => absurd (hbdb _ hmem) (lt_irrefl _)
          refine ⟨sd, _, hp, hsk, hsg, hss, hst, ?_, ?_, ?_, ?_,
            by rw [hlst, hlis], hnds, ?_, ?_, ?_⟩
          · simpa using hbk
          · simpa using hbg
          · simpa using hbs
          · simpa using hbt
          · simp only []
            exact List.Nodup.append hndb (List.nodup_singleton _)
              (fun a ha hb => by
                rw [List.mem_singleton] at hb
                exact hfresh (hb ▸ ha))
          · intro x hx
            rw [hhl]
            exact Nat.lt_succ_of_lt (hbds x hx)
          · intro x hx
            rw [hhl]
            simp only [] at hx
            rcases List.mem_append.mp hx with hx1 | hx2
            · exact Nat.lt_succ_of_lt (hbdb x hx1)
            · rw [List.mem_singleton] at hx2
              subst hx2
              exact Nat.lt_succ_self _
    · have hdef : w.getDef dk = none := by
        have h1 : (dk == "S") = false := by simpa using hS
        have h2 : (dk == "B") = false := by simpa using hB
        simp [IWorld.getDef, hprov, List.lookup, h1, h2]
      rw [instantiateProvider_nodef w dk ka cb hdef]
      exact ⟨sd, bd, hprov, hsk, hsg, hss, hst, hbk, hbg, hbs, hbt, hlis,
        hnds, hndb, hbds, hbdb⟩

theorem c8Inv_run (h : Nat) (cmds : List Cmd) :
    ∀ w : IWorld, c8Inv h w → c8Inv h (runCmds w cmds) := by
  induction cmds with
  | nil => intro w hw; exact hw
  | cons c rest ih =>
      intro w hw
      exact ih _ (c8Inv_step h w c.defKey c.keyArg c.cb hw)

theorem nodup_filter_eq_singleton {l : List Nat} {s : Nat}
    (hn : l.Nodup) (hs : s ∈ l) : l.filter (fun x => x = s) = [s] := by
  induction l with
  | nil => cases hs
  | cons a l ih =>
      rcases List.mem_cons.mp hs with rfl | hmem
      · have hnil : l.filter (fun x => x = s) = [] := by
          rw [List.filter_eq_nil_iff]
          intro b hb
          simp only [decide_eq_true_eq]
          exact fun hbs => (List.nodup_cons.mp hn).1 (hbs ▸ hb)
        simp [List.filter_cons, hnil]
      · have ha : ¬ (a = s) := fun hEq => (List.nodup_cons.mp hn).1 (hEq ▸ hmem)
        simp only [List.filter_cons, ha, decide_False, if_false]
        exact ih (List.nodup_cons.mp hn).2 hmem

theorem filter_map_pair (l : List Nat) (h s : Nat) (k : String) :
    ((l.map fun x => (x, (⟨h, x, k⟩ : Listener))).filter fun p => p.1 = s)
      = (l.filter fun x => x = s).map fun x => (x, (⟨h, x, k⟩ : Listener)) := by
  induction l with
  | nil => rfl
  | cons a l ih =>
      by_cases ha : a = s <;>
        simp [List.filter_cons, ha, ih]

/-- C8 (idempotent wiring): in a world where `S` declares `subscribers` for
`B` and `B` declares `subscribeTo` for `S` — the same edge from both sides —
after any sequence of `instantiateProvider` calls the presence checks of
lines 288–291 and 314–331 have kept the edge registered once: every `S`
instance's store carries exactly one listener (the `callHandler` closure for
the shared handler), `B`'s instance list is duplicate-free, and a single
store change of an `S` instance fires the handler exactly once per
(supplier instance, subscriber instance) pair. -/
theorem c8_idempotent_wiring (h : Nat) (cmds : List Cmd) (s : Nat)
    (hs : s ∈ (runCmds (c8World h) cmds).defInstances "S") :
    ((runCmds (c8World h) cmds).listeners.filter fun p => p.1 = s)
        = [(s, ⟨h, s, "B"⟩)] ∧
    ((runCmds (c8World h) cmds).defInstances "B").Nodup ∧
    (fireStoreChange (runCmds (c8World h) cmds) s).events
      = (runCmds (c8World h) cmds).events
        ++ ((runCmds (c8World h) cmds).defInstances "B").map
            (fun b => IEvent.handlerFired h s b) := by
  obtain ⟨sd, bd, hprov, hsk, hsg, hss, hst, hbk, hbg, hbs, hbt, hlis, hnds,
    hndb, hbds, hbdb⟩ := c8Inv_run h cmds (c8World h) (c8Inv_init h)
  have hDS : (runCmds (c8World h) cmds).defInstances "S"
      = sd.instances.getD [] := by
    simp [IWorld.defInstances, IWorld.getDef, hprov, List.lookup]
  have hDB : (runCmds (c8World h) cmds).defInstances "B"
      = bd.instances.getD [] := by
    simp [IWorld.defInstances, IWorld.getDef, hprov, List.lookup]
  rw [hDS] at hs
  have hfil : ((runCmds (c8World h) cmds).listeners.filter fun p => p.1 = s)
      = [(s, ⟨h, s, "B"⟩)] := by
    rw [hlis, filter_map_pair, nodup_filter_eq_singleton hnds hs]
    rfl
  refine ⟨hfil, hDB ▸ hndb, ?_⟩
  simp only [fireStoreChange]
  rw [hfil]
  simp [fireListeners, fireListener, hDB]

/-- Witness for `c8_idempotent_wiring`: both definitions instantiated once
each (`S` gets instance `0`, `B` gets instance `1`); instance `0`'s store
carries the single listener and its change fires the handler once for the
lone `B` instance. -/
theorem c8_idempotent_wiring_witness :
    (0 ∈ (runCmds (c8World 5)
        [⟨"S", .defaulted, none⟩, ⟨"B", .defaulted, none⟩]).defInstances "S") ∧
    (((runCmds (c8World 5)
        [⟨"S", .defaulted, none⟩, ⟨"B", .defaulted, none⟩]).listeners.filter
          fun p => p.1 = 0) = [(0, ⟨5, 0, "B"⟩)] ∧
     ((runCmds (c8World 5)
        [⟨"S", .defaulted, none⟩,
          ⟨"B", .defaulted, none⟩]).defInstances "B").Nodup ∧
     (fireStoreChange (runCmds (c8World 5)
        [⟨"S", .defaulted, none⟩, ⟨"B", .defaulted, none⟩]) 0).events
       = (runCmds (c8World 5)
           [⟨"S", .defaulted, none⟩, ⟨"B", .defaulted, none⟩]).events
         ++ ((runCmds (c8World 5)
             [⟨"S", .defaulted, none⟩,
               ⟨"B", .defaulted, none⟩]).defInstances "B").map
             (fun b => IEvent.handlerFired 5 0 b)) :=
  ⟨by decide,
   c8_idempotent_wiring 5 [⟨"S", .defaulted, none⟩, ⟨"B", .defaulted, none⟩] 0
     (by decide)⟩

end RRP